import Mathlib

/-!
# The verification-code fetcher `netlify/functions/get-otp.js`

A shallow embedding of `extractCode`, of the line framer in the socket `data`
handler and of the protocol session of `fetchLatestCode`, followed by the
properties of these definitions.

Texts are lists of characters.  The character classes of the regular
expressions in the source are spelled out on code points.
-/

namespace GetOtp

/-- A JavaScript string, as the list of its characters. -/
abbrev Str := List Char

/-! ## Character classes of the regular expressions -/

/-- The class `\d`: the ten decimal digits. -/
def isDigit (c : Char) : Bool :=
  decide (48 ≤ c.toNat) && decide (c.toNat ≤ 57)

/-- The class `\w`: ASCII letters, decimal digits and the underscore. -/
def isWordChar (c : Char) : Bool :=
  (decide (97 ≤ c.toNat) && decide (c.toNat ≤ 122))
    || (decide (65 ≤ c.toNat) && decide (c.toNat ≤ 90))
    || isDigit c
    || decide (c.toNat = 95)

/-- The class `\s`: white space and line terminators of the language. -/
def isSpace (c : Char) : Bool :=
  let n := c.toNat
  decide (n = 9) || decide (n = 10) || decide (n = 11) || decide (n = 12) || decide (n = 13)
    || decide (n = 32) || decide (n = 160) || decide (n = 5760)
    || (decide (8192 ≤ n) && decide (n ≤ 8202))
    || decide (n = 8232) || decide (n = 8233) || decide (n = 8239) || decide (n = 8287)
    || decide (n = 12288) || decide (n = 65279)

/-! ## `extractCode` -/

/-- Whether the position between `prev` and `next` is inside or next to a word:
`none` stands for the start or the end of the text. -/
def isWordAt (c : Option Char) : Bool :=
  match c with
  | none => false
  | some a => isWordChar a

/-- The assertion `\b` at the position between `prev` and `next`. -/
def wordBoundary (prev next : Option Char) : Bool :=
  isWordAt prev != isWordAt next

/-- The pattern `\b(\d{6})\b` tried at the head of `rest`, the character before
being `prev`; the result is the captured group. -/
def matchCodeAt (prev : Option Char) (rest : Str) : Option Str :=
  let d := rest.take 6
  if wordBoundary prev rest.head? && decide (d.length = 6) && d.all isDigit
      && wordBoundary d.getLast? (rest.drop 6).head? then
    some d
  else
    none

/-- The search of `text.match(/\b(\d{6})\b/)`: the pattern is tried at each
position from left to right, the first success wins. -/
def searchCode (prev : Option Char) : Str → Option Str
  | [] => matchCodeAt prev []
  | c :: cs =>
    match matchCodeAt prev (c :: cs) with
    | some d => some d
    | none => searchCode (some c) cs

/-- The function `extractCode(text)`: `text && text.match(...)`, then the first
group or `null`. -/
def extractCode (text : Str) : Option Str :=
  if text.isEmpty then none else searchCode none text

/-! ### Reference readings of "the first stand-alone run of six digits" -/

/-- The text `t` splits as `pre ++ code ++ post` where `code` is six decimal
digits, the character before it (if any) is outside the class `inner` and the
character after it (if any) is outside `inner` too. -/
def IsCodeAt (inner : Char → Bool) (t pre code post : Str) : Prop :=
  t = pre ++ code ++ post ∧ code.length = 6 ∧ (∀ c ∈ code, isDigit c = true) ∧
    (∀ c, pre.getLast? = some c → inner c = false) ∧
    (∀ c, post.head? = some c → inner c = false)

/-- The run `code` is the leftmost one of `t` in the sense of `IsCodeAt`. -/
def IsFirstCode (inner : Char → Bool) (t code : Str) : Prop :=
  ∃ pre post, IsCodeAt inner t pre code post ∧
    ∀ pre2 code2 post2, IsCodeAt inner t pre2 code2 post2 → pre.length ≤ pre2.length

/-- The character in front of a position `mid` characters into the rest of the
text, the character before the rest being `prev`. -/
def lastOr (prev : Option Char) (mid : Str) : Option Char :=
  match mid.getLast? with
  | some c => some c
  | none => prev

/-- The run `d` stands `mid` characters into `rest`, bounded by non-word
characters, the character before `rest` being `prev`. -/
def RunAt (prev : Option Char) (rest mid d post : Str) : Prop :=
  rest = mid ++ d ++ post ∧ d.length = 6 ∧ (∀ c ∈ d, isDigit c = true) ∧
    isWordAt (lastOr prev mid) = false ∧ isWordAt post.head? = false

/-! ## The line framer -/

/-- The call `buffer.split(/\r?\n/)`: the separator is tried at each position
from left to right, `cur` being the piece collected since the last separator.
A line feed, or a carriage return directly followed by a line feed, closes the
piece; the piece after the last separator closes the result, which is thus
never empty. -/
def splitLines (cur : Str) : Str → List Str
  | [] => [cur]
  | [c] => if c = '\n' then cur :: splitLines [] [] else [cur ++ [c]]
  | c :: d :: rest =>
    if c = '\n' then cur :: splitLines [] (d :: rest)
    else if c = '\r' ∧ d = '\n' then cur :: splitLines [] rest
    else splitLines (cur ++ [c]) (d :: rest)

/-- One framing step of the `data` handler: `buffer += chunk`,
`lines = buffer.split(/\r?\n/)`, `buffer = lines.pop()`.  The result is the
list of complete lines and the new buffer. -/
def frame (buffer chunk : Str) : List Str × Str :=
  let lines := splitLines [] (buffer ++ chunk)
  (lines.dropLast, lines.getLast?.getD [])

/-- The framing step run over a sequence of chunks, collecting the complete
lines of all steps in order. -/
def feedChunks (out : List Str) (buffer : Str) : List Str → List Str × Str
  | [] => (out, buffer)
  | chunk :: chunks =>
    feedChunks (out ++ (frame buffer chunk).1) (frame buffer chunk).2 chunks

/-- A piece without one carriage return at its end. -/
def stripCR (cur : Str) : Str :=
  if cur.getLast? = some '\r' then cur.dropLast else cur

/-- A second description of `splitLines`, used in the proofs: every line feed
closes a piece, and a piece closed by a line feed loses one carriage return at
its end. -/
def splitStrip (cur : Str) : Str → List Str
  | [] => [cur]
  | c :: rest =>
    if c = '\n' then stripCR cur :: splitStrip [] rest
    else splitStrip (cur ++ [c]) rest

/-- The text that the lines `lines`, each followed by its terminator from
`terms`, and the leftover `rest` spell out. -/
def rebuild (lines terms : List Str) (rest : Str) : Str :=
  (List.zipWith (fun l t => l ++ t) lines terms).flatten ++ rest

/-- The reading of "split at a line feed optionally preceded by a carriage
return": the text `s` is the lines `lines`, each followed by its terminator,
then the leftover `r`; no line and not the leftover holds a line feed; a
terminator is a carriage return with a line feed, or a line feed alone after a
line that does not end in a carriage return. -/
def IsFraming (s : Str) (lines : List Str) (r : Str) : Prop :=
  ∃ ts : List Str,
    List.Forall₂
      (fun l t => '\n' ∉ l ∧
        (t = "\r\n".toList ∨ (t = "\n".toList ∧ l.getLast? ≠ some '\r'))) lines ts ∧
    '\n' ∉ r ∧ s = rebuild lines ts r

/-! ## The protocol session -/

/-- The test `/OK/i.test(line)`: a letter O directly followed by a letter K, in
either case, anywhere in the line. -/
def testOK : Str → Bool
  | a :: b :: rest =>
    (decide (a = 'O' ∨ a = 'o') && decide (b = 'K' ∨ b = 'k')) || testOK (b :: rest)
  | _ => false

/-- The call `line.startsWith(p)`. -/
def startsWith (p line : Str) : Bool :=
  p.isPrefixOf line

/-- A letter of a pattern under the flag `i`: `p` is an upper-case ASCII letter,
matched by itself and by its lower-case form. -/
def eqIgnoreCase (p c : Char) : Bool :=
  decide (c = p) || decide (c.toNat = p.toNat + 32)

/-- The letters `p` of a pattern under the flag `i`, tried at the head of a text. -/
def startsWithIgnoreCase : Str → Str → Bool
  | [], _ => true
  | _ :: _, [] => false
  | p :: ps, c :: cs => eqIgnoreCase p c && startsWithIgnoreCase ps cs

/-- The pattern `/^\*\s+(\d+)\s+EXISTS/i` on a line; the result is the captured
group.  The classes `\s` and `\d` are disjoint and neither holds a letter, so
each greedy repetition takes the whole run in front of it. -/
def matchExists : Str → Option Str
  | [] => none
  | c :: r1 =>
    let r2 := r1.dropWhile isSpace
    let ds := r2.takeWhile isDigit
    let r3 := r2.dropWhile isDigit
    let r4 := r3.dropWhile isSpace
    if c = '*' ∧ (r1.takeWhile isSpace) ≠ [] ∧ ds ≠ [] ∧ (r3.takeWhile isSpace) ≠ []
        ∧ startsWithIgnoreCase "EXISTS".toList r4 = true then
      some ds
    else
      none

/-- The call `parseInt(ds, 10)` on a run of decimal digits.  The value is kept
exact; the number type of the source holds it exactly below `2 ^ 53`. -/
def parseInt (ds : Str) : Nat :=
  ds.foldl (fun n c => 10 * n + (c.toNat - 48)) 0

/-- A number inside a template literal: its decimal digits. -/
def numToString (n : Nat) : Str :=
  Nat.toDigits 10 n

/-- How the promise of `fetchLatestCode` settles. -/
inductive Outcome where
  | resolved (code : Option Str)
  | rejected (message : Str)
  deriving DecidableEq

/-- The variables of `fetchLatestCode` together with what it did to the socket
and to its promise: `written` lists the arguments of `socket.write` in order,
`ended` tells that `socket.end()` was called, `outcome` is the value the promise
settled with, if it has. -/
structure Session where
  buffer : Str
  stage : Nat
  existsCount : Option Nat
  messageData : Str
  written : List Str
  ended : Bool
  outcome : Option Outcome
  deriving DecidableEq

/-- The session when `fetchLatestCode` has installed its handlers. -/
def initial : Session :=
  { buffer := [], stage := 0, existsCount := none, messageData := [], written := [],
    ended := false, outcome := none }

/-- The helper `send(cmd)`: `socket.write(cmd + '\r\n')`. -/
def send (s : Session) (cmd : Str) : Session :=
  { s with written := s.written ++ [cmd ++ "\r\n".toList] }

/-- The call `socket.end()`. -/
def socketEnd (s : Session) : Session :=
  { s with ended := true }

/-- The call `resolve(code)`: a promise keeps the first value it settled with. -/
def resolve (code : Option Str) (s : Session) : Session :=
  match s.outcome with
  | none => { s with outcome := some (Outcome.resolved code) }
  | some _ => s

/-- The call `reject(new Error(message))`: without effect on a settled promise. -/
def reject (message : Str) (s : Session) : Session :=
  match s.outcome with
  | none => { s with outcome := some (Outcome.rejected message) }
  | some _ => s

/-- The expression `code || null`. -/
def orNull : Option Str → Option Str
  | some [] => none
  | code => code

/-- The expression `existsCount || 1`. -/
def seqOf : Option Nat → Nat
  | none => 1
  | some n => if n = 0 then 1 else n

/-- The three commands of the session. -/
def loginCmd (user pass : Str) : Str :=
  "A1 LOGIN ".toList ++ user ++ " ".toList ++ pass

/-- The command that selects the mailbox. -/
def selectCmd : Str :=
  "A2 SELECT INBOX".toList

/-- The command that fetches message `seq`. -/
def fetchCmd (seq : Nat) : Str :=
  "A3 FETCH ".toList ++ numToString seq ++ " BODY[]".toList

/-- Stage 2 first records the message count of a line that reports one. -/
def recordExists (s : Session) (line : Str) : Session :=
  match matchExists line with
  | some ds => { s with existsCount := some (parseInt ds) }
  | none => s

/-- The body of the loop `for (const line of lines)` for one line.  The Boolean
is true when the body left the handler through `return`. -/
def onLine (user pass : Str) (s : Session) (line : Str) : Session × Bool :=
  if s.stage = 0 then
    if startsWith "*".toList line then
      ({ send s (loginCmd user pass) with stage := 1 }, false)
    else
      (s, false)
  else if s.stage = 1 then
    if startsWith "A1".toList line then
      if testOK line then
        ({ send s selectCmd with stage := 2 }, false)
      else
        (reject "IMAP login failed".toList (socketEnd s), true)
    else
      (s, false)
  else if s.stage = 2 then
    if startsWith "A2".toList line then
      if testOK line then
        ({ send (recordExists s line) (fetchCmd (seqOf (recordExists s line).existsCount))
            with stage := 3 }, false)
      else
        (reject "IMAP select mailbox failed".toList (socketEnd (recordExists s line)), true)
    else
      (recordExists s line, false)
  else if s.stage = 3 then
    if startsWith "A3".toList line then
      if testOK line then
        (resolve (orNull (extractCode s.messageData)) (socketEnd s), true)
      else
        (reject "IMAP fetch failed".toList (socketEnd s), true)
    else
      ({ s with messageData := s.messageData ++ line ++ "\n".toList }, false)
  else
    (s, false)

/-- The loop over the complete lines of one chunk; a `return` in the body drops
the lines that follow. -/
def processLines (user pass : Str) (s : Session) : List Str → Session
  | [] => s
  | line :: lines =>
    if (onLine user pass s line).2 then (onLine user pass s line).1
    else processLines user pass (onLine user pass s line).1 lines

/-- The handler of the socket event `data`. -/
def onData (user pass : Str) (s : Session) (chunk : Str) : Session :=
  processLines user pass { s with buffer := (frame s.buffer chunk).2 } (frame s.buffer chunk).1

/-- The handler of the socket event `error`: `reject(err)`. -/
def onError (s : Session) (message : Str) : Session :=
  reject message s

/-- The handler of the socket event `end`. -/
def onEnd (s : Session) : Session :=
  if s.stage < 3 then resolve none s else s

/-- What the socket delivers to the session. -/
inductive Event where
  | data (chunk : Str)
  | error (message : Str)
  | finish
  deriving DecidableEq

/-- The handler that an event sets off. -/
def step (user pass : Str) (s : Session) : Event → Session
  | Event.data chunk => onData user pass s chunk
  | Event.error message => onError s message
  | Event.finish => onEnd s

/-- The session after a sequence of events. -/
def run (user pass : Str) (s : Session) : List Event → Session
  | [] => s
  | e :: es => run user pass (step user pass s e) es

/-- The number of the most recent line of `ls` that matches the pattern of
`matchExists`, if any. -/
def lastExists (ls : List Str) : Option Nat :=
  (ls.filterMap (fun l => (matchExists l).map parseInt)).getLast?

/-- The letters of the word `EXISTS`, each with its lower-case form. -/
def existsLetters : List (Char × Char) :=
  "EXISTS".toList.zip "exists".toList

/-- The reading of "a line `* <digits> EXISTS`, case-insensitive": the line is a
star, white space, a run of decimal digits, white space, the letters of `EXISTS`
each in either case, and any text after them; `n` is the decimal value of the
digits. -/
def IsExistsLine (line : Str) (n : Nat) : Prop :=
  ∃ sp1 ds sp2 kw rest : Str,
    line = "*".toList ++ sp1 ++ ds ++ sp2 ++ kw ++ rest ∧
      sp1 ≠ [] ∧ (∀ c ∈ sp1, isSpace c = true) ∧
      ds ≠ [] ∧ (∀ c ∈ ds, isDigit c = true) ∧
      sp2 ≠ [] ∧ (∀ c ∈ sp2, isSpace c = true) ∧
      List.Forall₂ (fun c pq => c = pq.1 ∨ c = pq.2) kw existsLetters ∧
      n = Nat.ofDigits 10 (ds.reverse.map (fun c => c.toNat - 48))

/-- The reading of "the number from the most recent matching line, or unknown
if none": `some k` when a line of `ls` reports `k` and no later line of `ls`
reports a count, `none` when no line of `ls` reports one. -/
def IsLastExists (ls : List Str) : Option Nat → Prop
  | some k => ∃ (pre : List Str) (m : Str) (post : List Str),
      ls = pre ++ m :: post ∧ IsExistsLine m k ∧ ∀ x ∈ post, ∀ j, ¬ IsExistsLine x j
  | none => ∀ x ∈ ls, ∀ j, ¬ IsExistsLine x j

/-- The sequence number of the fetch command for a message count: the count
when it is known and positive, 1 otherwise. -/
def targetSeq : Option Nat → Nat
  | some k => if 0 < k then k else 1
  | none => 1

/-- The lines `ls` as they accumulate in `messageData`: each followed by a line
feed, in order. -/
def joinLines (ls : List Str) : Str :=
  (ls.map (fun l => l ++ "\n".toList)).flatten

/-- The commands written are the first `stage` of the three commands of the
session, in order, for some sequence number of at least 1. -/
def SeqInv (user pass : Str) (s : Session) : Prop :=
  s.stage ≤ 3 ∧ ∃ n, 1 ≤ n ∧
    s.written = List.take s.stage
      [loginCmd user pass ++ "\r\n".toList, selectCmd ++ "\r\n".toList,
        fetchCmd n ++ "\r\n".toList]

/-- What the socket sends to the server during the events `es`.  A write is
sent only while `socket.end()` has not been called: the socket refuses a write
made after it.  Within one event every write comes before a call of
`socket.end()`, since each such call is followed by `return`; so the writes of
an event are sent exactly when the socket was not ended when the event
arrived. -/
def transmitted (user pass : Str) (s : Session) : List Event → List Str
  | [] => []
  | e :: es =>
    (if s.ended then [] else (step user pass s e).written.drop s.written.length)
      ++ transmitted user pass (step user pass s e) es

/-! ## The HTTP handler `exports.handler` -/

/-- The property `secret` of the parsed body: absent, a string, or a value of
another type with its truth value. -/
inductive SecretField where
  | missing
  | text (s : Str)
  | other (truthy : Bool)
  deriving DecidableEq

/-- The outcome of `JSON.parse(event.body || '{}')` followed by the read of
`body.secret`: the parse throws an error with a message, or the body is `null`
and the read throws an error with a message, or the body is another value with
its property `secret`. -/
inductive ParsedBody where
  | invalid (message : Str)
  | null (message : Str)
  | object (secret : SecretField)
  deriving DecidableEq

/-- The request as the handler reads it. -/
structure HttpEvent where
  httpMethod : Str
  body : ParsedBody
  deriving DecidableEq

/-- The object handed to `JSON.stringify` for the body of the response. -/
inductive ResponseBody where
  | code (c : Str)
  | error (message : Str)
  deriving DecidableEq

/-- The value the handler returns. -/
structure Response where
  statusCode : Nat
  body : ResponseBody
  deriving DecidableEq

/-- The constant `DEFAULTS.SECRET`. -/
def defaultSecret : Str :=
  "sekret2025".toList

/-- The expression `process.env.SHARED_SECRET || DEFAULTS.SECRET`. -/
def expectedSecret (env : Option Str) : Str :=
  match env with
  | none => defaultSecret
  | some s => if s = [] then defaultSecret else s

/-- The test `!providedSecret || providedSecret !== expectedSecret`. -/
def secretRejected (expected : Str) : SecretField → Bool
  | SecretField.missing => true
  | SecretField.text s => decide (s = []) || decide (s ≠ expected)
  | SecretField.other truthy => !truthy || true

/-- The block `catch (error)`: status 500 with `error.message || 'Unknown error'`. -/
def errorResponse (message : Str) : Response :=
  { statusCode := 500,
    body := ResponseBody.error (if message = [] then "Unknown error".toList else message) }

/-- The function `exports.handler`, with the variable `SHARED_SECRET` of the
environment and the way the promise of `fetchLatestCode` settles as
parameters. -/
def handler (env : Option Str) (event : HttpEvent) (fetched : Outcome) : Response :=
  if event.httpMethod ≠ "POST".toList then
    { statusCode := 405, body := ResponseBody.error "Method not allowed".toList }
  else
    match event.body with
    | ParsedBody.invalid message => errorResponse message
    | ParsedBody.null message => errorResponse message
    | ParsedBody.object secret =>
      if secretRejected (expectedSecret env) secret then
        { statusCode := 401, body := ResponseBody.error "Unauthorized".toList }
      else
        match fetched with
        | Outcome.rejected message => errorResponse message
        | Outcome.resolved none =>
          { statusCode := 404, body := ResponseBody.error "Verification code not found".toList }
        | Outcome.resolved (some c) =>
          if c = [] then
            { statusCode := 404,
              body := ResponseBody.error "Verification code not found".toList }
          else
            { statusCode := 200, body := ResponseBody.code c }

/-- A request with the method POST and the default secret in its body. -/
def authorizedEvent : HttpEvent :=
  { httpMethod := "POST".toList, body := ParsedBody.object (SecretField.text defaultSecret) }

/-! ## Sample dialogues -/

/-- The chunk that takes a fresh session to stage 3: greeting, login accepted,
one message reported, mailbox selected. -/
def openingChunk : Str :=
  "* OK ready\r\nA1 OK LOGIN completed\r\n* 1 EXISTS\r\nA2 OK SELECT completed\r\n".toList

/-- The two content lines of a message whose code `845213` is cut after `i`
digits. -/
def splitCodeLines (i : Nat) : List Str :=
  ["Your code is ".toList ++ "845213".toList.take i,
    "845213".toList.drop i ++ " today".toList]

/-! ## Lemmas on `extractCode` -/


theorem isWordChar_of_isDigit {c : Char} (h : isDigit c = true) : isWordChar c = true := by
  simp [isWordChar, h]

theorem isWordAt_some (a : Char) : isWordAt (some a) = isWordChar a := rfl

theorem isWordAt_none : isWordAt none = false := rfl

theorem matchCodeAt_eq_some (prev : Option Char) (rest d : Str) :
    matchCodeAt prev rest = some d ↔ ∃ post, RunAt prev rest [] d post := by
  unfold matchCodeAt RunAt
  constructor
  · intro h
    simp only [] at h
    split at h
    · rename_i hc
      simp only [Bool.and_eq_true, decide_eq_true_eq, List.all_eq_true] at hc
      obtain ⟨⟨⟨h1, h2⟩, h3⟩, h4⟩ := hc
      injection h with h
      subst h
      refine ⟨rest.drop 6, by simp, h2, h3, ?_, ?_⟩
      · cases rest with
        | nil => simp at h2
        | cons a as =>
          have ha : isDigit a = true := h3 a (by simp)
          simpa [wordBoundary, isWordAt_some, lastOr, isWordChar_of_isDigit ha] using h1
      · cases hl : (List.take 6 rest).getLast? with
        | none =>
          rw [List.getLast?_eq_none_iff] at hl
          rw [hl] at h2
          simp at h2
        | some z =>
          have hz : isDigit z = true := h3 z (List.mem_of_getLast?_eq_some hl)
          rw [hl] at h4
          simpa [wordBoundary, isWordAt_some, isWordChar_of_isDigit hz] using h4
    · exact absurd h (by simp)
  · rintro ⟨post, h1, h2, h3, h4, h5⟩
    simp only [List.nil_append] at h1
    subst h1
    have ht : List.take 6 (d ++ post) = d := by
      rw [← h2]; simp
    have hd : List.drop 6 (d ++ post) = post := by
      rw [← h2]; simp
    simp only [ht, hd]
    have hne : d ≠ [] := by
      intro h; rw [h] at h2; simp at h2
    obtain ⟨a, as, rfl⟩ := List.exists_cons_of_ne_nil hne
    have ha : isDigit a = true := h3 a (by simp)
    cases hl : (a :: as).getLast? with
    | none => simp at hl
    | some z =>
      have hz : isDigit z = true := h3 z (List.mem_of_getLast?_eq_some hl)
      have h4' : isWordAt prev = false := by simpa [lastOr] using h4
      have hall : (a :: as).all isDigit = true := by
        rw [List.all_eq_true]; exact h3
      simp [wordBoundary, isWordAt_some, isWordChar_of_isDigit ha, isWordChar_of_isDigit hz, h4',
        h5, h2, hall]

theorem matchCodeAt_nil (prev : Option Char) : matchCodeAt prev [] = none := by
  simp [matchCodeAt]

theorem lastOr_cons (prev : Option Char) (c : Char) (mid : Str) :
    lastOr prev (c :: mid) = lastOr (some c) mid := by
  cases mid with
  | nil => rfl
  | cons a as =>
    have h : (c :: a :: as).getLast? = (a :: as).getLast? := List.getLast?_cons_cons
    have h2 : (a :: as).getLast? = some ((a :: as).getLast (by simp)) :=
      List.getLast?_eq_getLast _ (by simp)
    unfold lastOr
    rw [h, h2]

theorem runAt_cons (prev : Option Char) (c : Char) (cs mid d post : Str) :
    RunAt prev (c :: cs) (c :: mid) d post ↔ RunAt (some c) cs mid d post := by
  simp [RunAt, lastOr_cons]

theorem runAt_head {prev : Option Char} {c m : Char} {cs mid d post : Str}
    (h : RunAt prev (c :: cs) (m :: mid) d post) : m = c := by
  have h1 := h.1
  simp only [List.cons_append] at h1
  injection h1 with h1 _
  exact h1.symm

theorem runAt_nil_rest {prev : Option Char} {mid d post : Str} :
    ¬ RunAt prev [] mid d post := by
  rintro ⟨h1, h2, _⟩
  have := congrArg List.length h1
  simp at this
  omega

theorem searchCode_some (rest : Str) : ∀ (prev : Option Char) (d : Str),
    searchCode prev rest = some d →
      ∃ mid post, RunAt prev rest mid d post ∧
        ∀ mid2 d2 post2, RunAt prev rest mid2 d2 post2 → mid.length ≤ mid2.length := by
  induction rest with
  | nil =>
    intro prev d h
    simp [searchCode, matchCodeAt_nil] at h
  | cons c cs ih =>
    intro prev d h
    unfold searchCode at h
    cases hm : matchCodeAt prev (c :: cs) with
    | some d1 =>
      rw [hm] at h
      injection h with h
      subst h
      obtain ⟨post, hp⟩ := (matchCodeAt_eq_some prev (c :: cs) d1).1 hm
      exact ⟨[], post, hp, fun _ _ _ _ => Nat.zero_le _⟩
    | none =>
      rw [hm] at h
      obtain ⟨mid, post, hr, hmin⟩ := ih (some c) d h
      refine ⟨c :: mid, post, (runAt_cons prev c cs mid d post).2 hr, ?_⟩
      intro mid2 d2 post2 h2
      cases mid2 with
      | nil =>
        have := (matchCodeAt_eq_some prev (c :: cs) d2).2 ⟨post2, h2⟩
        rw [hm] at this
        exact absurd this (by simp)
      | cons m ms =>
        have hmc := runAt_head h2
        subst hmc
        have := hmin ms d2 post2 ((runAt_cons prev m cs ms d2 post2).1 h2)
        simpa using this

theorem searchCode_none (rest : Str) : ∀ (prev : Option Char),
    searchCode prev rest = none → ∀ mid d post, ¬ RunAt prev rest mid d post := by
  induction rest with
  | nil =>
    intro prev _ mid d post
    exact runAt_nil_rest
  | cons c cs ih =>
    intro prev h mid d post hr
    unfold searchCode at h
    cases hm : matchCodeAt prev (c :: cs) with
    | some d1 =>
      rw [hm] at h
      exact absurd h (by simp)
    | none =>
      rw [hm] at h
      cases mid with
      | nil =>
        have := (matchCodeAt_eq_some prev (c :: cs) d).2 ⟨post, hr⟩
        rw [hm] at this
        exact absurd this (by simp)
      | cons m ms =>
        have hmc := runAt_head hr
        subst hmc
        exact ih (some m) h ms d post ((runAt_cons prev m cs ms d post).1 hr)

theorem extractCode_eq_searchCode (t : Str) : extractCode t = searchCode none t := by
  cases t with
  | nil => simp [extractCode, searchCode, matchCodeAt_nil]
  | cons a as => simp [extractCode]

theorem isWordAt_eq_false_iff (o : Option Char) :
    isWordAt o = false ↔ ∀ c, o = some c → isWordChar c = false := by
  cases o with
  | none => simp [isWordAt_none]
  | some a => simp [isWordAt_some]

theorem runAt_none_iff (t pre code post : Str) :
    RunAt none t pre code post ↔ IsCodeAt isWordChar t pre code post := by
  have hl : lastOr none pre = pre.getLast? := by
    unfold lastOr
    cases pre.getLast? <;> rfl
  simp only [RunAt, IsCodeAt, hl, isWordAt_eq_false_iff]

theorem isCodeAt_unique {inner : Char → Bool} {t pre1 code1 post1 pre2 code2 post2 : Str}
    (h1 : IsCodeAt inner t pre1 code1 post1) (h2 : IsCodeAt inner t pre2 code2 post2)
    (hlen : pre1.length = pre2.length) : code1 = code2 := by
  have e : pre1 ++ (code1 ++ post1) = pre2 ++ (code2 ++ post2) := by
    rw [← List.append_assoc, ← List.append_assoc, ← h1.1, ← h2.1]
  have e2 := (List.append_inj e hlen).2
  exact (List.append_inj e2 (by rw [h1.2.1, h2.2.1])).1

/-! ## Lemmas on the line framer -/

theorem stripCR_append_cr (cur : Str) : stripCR (cur ++ ['\r']) = cur := by
  simp [stripCR]

theorem stripCR_of_ne {cur : Str} (h : cur.getLast? ≠ some '\r') : stripCR cur = cur := by
  simp [stripCR, h]

theorem splitLines_eq_splitStrip (cur s : Str) :
    ¬ (cur.getLast? = some '\r' ∧ s.head? = some '\n') → splitLines cur s = splitStrip cur s := by
  induction cur, s using splitLines.induct with
  | case1 cur => intro _; simp [splitLines, splitStrip]
  | case2 cur ih =>
    intro h
    have hc : cur.getLast? ≠ some '\r' := by simpa using h
    simp [splitLines, splitStrip, stripCR_of_ne hc]
  | case3 cur c hc =>
    intro _
    simp [splitLines, splitStrip, hc]
  | case4 cur d rest ih =>
    intro h
    have hc : cur.getLast? ≠ some '\r' := by simpa using h
    have := ih (by simp)
    simp only [splitLines, if_true, splitStrip, stripCR_of_ne hc] at this ⊢
    rw [this]
  | case5 cur c d rest hc hcd ih =>
    intro _
    obtain ⟨rfl, rfl⟩ := hcd
    have := ih (by simp)
    simp only [splitLines, splitStrip, hc, if_false, and_self, if_true, stripCR_append_cr]
    rw [this]
  | case6 cur c d rest hc hcd ih =>
    intro _
    have := ih (by
      rintro ⟨h1, h2⟩
      apply hcd
      simp at h1 h2
      exact ⟨h1, h2⟩)
    simp only [splitLines, hc, hcd, if_false]
    rw [this]
    conv_rhs => unfold splitStrip
    simp [hc]

theorem splitLines_nil_eq (s : Str) : splitLines [] s = splitStrip [] s :=
  splitLines_eq_splitStrip [] s (by simp)

theorem splitStrip_nil (cur : Str) : splitStrip cur [] = [cur] := rfl

theorem splitStrip_cons_lf (cur rest : Str) :
    splitStrip cur ('\n' :: rest) = stripCR cur :: splitStrip [] rest := by
  simp [splitStrip]

theorem splitStrip_cons_of_ne {c : Char} (h : c ≠ '\n') (cur rest : Str) :
    splitStrip cur (c :: rest) = splitStrip (cur ++ [c]) rest := by
  simp [splitStrip, h]

theorem splitStrip_ne_nil (s : Str) : ∀ cur, splitStrip cur s ≠ [] := by
  induction s with
  | nil => intro cur; simp [splitStrip]
  | cons c rest ih =>
    intro cur
    by_cases hc : c = '\n'
    · subst hc
      rw [splitStrip_cons_lf]
      simp
    · rw [splitStrip_cons_of_ne hc]
      exact ih _

theorem splitStrip_append_left (cur : Str) : ∀ (acc s : Str), '\n' ∉ cur →
    splitStrip acc (cur ++ s) = splitStrip (acc ++ cur) s := by
  induction cur with
  | nil => intro acc s _; simp
  | cons a as ih =>
    intro acc s h
    have ha : a ≠ '\n' := by
      intro e; apply h; simp [e]
    have has : '\n' ∉ as := by
      intro e; apply h; simp [e]
    rw [List.cons_append, splitStrip_cons_of_ne ha, ih (acc ++ [a]) s has]
    simp

theorem splitStrip_append (s : Str) : ∀ (cur c : Str),
    splitStrip cur (s ++ c) =
      (splitStrip cur s).dropLast ++ splitStrip ((splitStrip cur s).getLast?.getD []) c := by
  induction s with
  | nil => intro cur c; simp [splitStrip]
  | cons a rest ih =>
    intro cur c
    by_cases ha : a = '\n'
    · subst ha
      have hne := splitStrip_ne_nil rest []
      obtain ⟨x, xs, hx⟩ := List.exists_cons_of_ne_nil hne
      rw [List.cons_append, splitStrip_cons_lf, splitStrip_cons_lf, ih [] c, hx]
      simp [List.getLast?_cons_cons]
    · rw [List.cons_append, splitStrip_cons_of_ne ha, splitStrip_cons_of_ne ha,
        ih (cur ++ [a]) c]

theorem splitStrip_getLast_no_lf (s : Str) : ∀ cur, '\n' ∉ cur →
    '\n' ∉ (splitStrip cur s).getLast?.getD [] := by
  induction s with
  | nil => intro cur h; simpa [splitStrip] using h
  | cons a rest ih =>
    intro cur h
    by_cases ha : a = '\n'
    · subst ha
      have hne := splitStrip_ne_nil rest []
      obtain ⟨x, xs, hx⟩ := List.exists_cons_of_ne_nil hne
      have := ih [] (by simp)
      rw [splitStrip_cons_lf]
      rw [hx] at this ⊢
      simpa [List.getLast?_cons_cons] using this
    · rw [splitStrip_cons_of_ne ha]
      apply ih
      simp [h, Ne.symm ha]

theorem splitLines_ne_nil (s : Str) : splitLines [] s ≠ [] := by
  rw [splitLines_nil_eq]
  exact splitStrip_ne_nil s []

theorem frame_fst (b c : Str) : (frame b c).1 = (splitLines [] (b ++ c)).dropLast := rfl

theorem frame_snd (b c : Str) : (frame b c).2 = (splitLines [] (b ++ c)).getLast?.getD [] := rfl

theorem splitLines_append (s c : Str) :
    splitLines [] (s ++ c) = (frame [] s).1 ++ splitLines [] ((frame [] s).2 ++ c) := by
  have hlast : '\n' ∉ (splitStrip [] s).getLast?.getD [] :=
    splitStrip_getLast_no_lf s [] (by simp)
  rw [frame_fst, frame_snd, List.nil_append, splitLines_nil_eq, splitLines_nil_eq,
    splitLines_nil_eq, splitStrip_append s [] c, splitStrip_append_left _ [] c hlast]
  simp

theorem frame_append (s c : Str) :
    frame [] (s ++ c) =
      ((frame [] s).1 ++ (frame (frame [] s).2 c).1, (frame (frame [] s).2 c).2) := by
  have hne := splitLines_ne_nil ((frame [] s).2 ++ c)
  have h := splitLines_append s c
  apply Prod.ext
  · rw [frame_fst, List.nil_append, h, frame_fst (frame [] s).2 c]
    exact List.dropLast_append_of_ne_nil _ hne
  · rw [frame_snd, List.nil_append, h, frame_snd (frame [] s).2 c]
    obtain ⟨x, xs, hx⟩ := List.exists_cons_of_ne_nil hne
    rw [hx, List.getLast?_append, List.getLast?_eq_getLast (x :: xs) (by simp)]
    rfl

theorem feedChunks_eq_frame (cs : List Str) : ∀ s : Str,
    feedChunks (frame [] s).1 (frame [] s).2 cs = frame [] (s ++ cs.flatten) := by
  induction cs with
  | nil => intro s; simp [feedChunks]
  | cons c cs ih =>
    intro s
    have h := frame_append s c
    have h1 : (frame [] (s ++ c)).1 = (frame [] s).1 ++ (frame (frame [] s).2 c).1 := by
      rw [h]
    have h2 : (frame [] (s ++ c)).2 = (frame (frame [] s).2 c).2 := by
      rw [h]
    unfold feedChunks
    rw [← h1, ← h2, ih (s ++ c)]
    simp

/-! ## Lemmas on the session -/

theorem extractCode_length {t d : Str} (h : extractCode t = some d) : d.length = 6 := by
  rw [extractCode_eq_searchCode] at h
  obtain ⟨_, _, hr, _⟩ := searchCode_some t none d h
  exact hr.2.1

theorem orNull_extractCode (t : Str) : orNull (extractCode t) = extractCode t := by
  cases h : extractCode t with
  | none => rfl
  | some d =>
    have := extractCode_length h
    cases d with
    | nil => simp at this
    | cons a as => rfl

theorem one_le_seqOf (o : Option Nat) : 1 ≤ seqOf o := by
  cases o with
  | none => simp [seqOf]
  | some n =>
    by_cases h : n = 0
    · simp [seqOf, h]
    · simp only [seqOf, h, if_false]
      omega

theorem processLines_nil (u p : Str) (s : Session) : processLines u p s [] = s := rfl

theorem processLines_cons_continue {u p : Str} {s : Session} {l : Str}
    (h : (onLine u p s l).2 = false) (ls : List Str) :
    processLines u p s (l :: ls) = processLines u p (onLine u p s l).1 ls := by
  simp [processLines, h]

theorem processLines_cons_stop {u p : Str} {s : Session} {l : Str}
    (h : (onLine u p s l).2 = true) (ls : List Str) :
    processLines u p s (l :: ls) = (onLine u p s l).1 := by
  simp [processLines, h]

theorem matchExists_of_not_star {l : Str} (h : startsWith "*".toList l = false) :
    matchExists l = none := by
  cases l with
  | nil => rfl
  | cons c cs =>
    have hc : c ≠ '*' := by
      intro e
      subst e
      simp [startsWith] at h
    simp [matchExists, hc]

theorem recordExists_stage (s : Session) (l : Str) : (recordExists s l).stage = s.stage := by
  unfold recordExists
  cases matchExists l <;> rfl

theorem recordExists_written (s : Session) (l : Str) :
    (recordExists s l).written = s.written := by
  unfold recordExists
  cases matchExists l <;> rfl

theorem recordExists_outcome (s : Session) (l : Str) :
    (recordExists s l).outcome = s.outcome := by
  unfold recordExists
  cases matchExists l <;> rfl

theorem recordExists_eq (s : Session) (l : Str) :
    recordExists s l =
      { s with existsCount := ((matchExists l).map parseInt).or s.existsCount } := by
  unfold recordExists
  cases matchExists l <;> rfl

theorem lastExists_cons (l : Str) (ls : List Str) :
    lastExists (l :: ls) = (lastExists ls).or ((matchExists l).map parseInt) := by
  unfold lastExists
  rw [List.filterMap_cons]
  cases (matchExists l).map parseInt with
  | none => simp
  | some n =>
    simp only [List.getLast?_cons]
    cases (List.filterMap (fun l => (matchExists l).map parseInt) ls).getLast? <;> rfl

theorem onLine_stage2_other {u p : Str} {s : Session} {l : Str} (hs : s.stage = 2)
    (hl : startsWith "A2".toList l = false) :
    onLine u p s l = (recordExists s l, false) := by
  simp only [onLine, hs, hl]
  simp

theorem processLines_stage2 (u p : Str) (ls : List Str) : ∀ (s : Session) (rest : List Str),
    s.stage = 2 → (∀ x ∈ ls, startsWith "A2".toList x = false) →
    processLines u p s (ls ++ rest) =
      processLines u p { s with existsCount := (lastExists ls).or s.existsCount } rest := by
  induction ls with
  | nil => intro s rest _ _; rfl
  | cons l ls ih =>
    intro s rest hs hls
    have hl := hls l (by simp)
    have h1 := onLine_stage2_other (u := u) (p := p) hs hl
    have hc : (onLine u p s l).2 = false := by rw [h1]
    rw [List.cons_append, processLines_cons_continue hc, h1]
    rw [ih (recordExists s l) rest (by rw [recordExists_stage, hs])
      (fun x hx => hls x (by simp [hx]))]
    rw [recordExists_eq, lastExists_cons]
    congr 1
    cases lastExists ls <;> cases (matchExists l).map parseInt <;> rfl

theorem onLine_stage0_star {u p : Str} {s : Session} {l : Str} (hs : s.stage = 0)
    (hl : startsWith "*".toList l = true) :
    onLine u p s l = ({ send s (loginCmd u p) with stage := 1 }, false) := by
  simp only [onLine, hs, hl]
  simp

theorem onLine_stage0_other {u p : Str} {s : Session} {l : Str} (hs : s.stage = 0)
    (hl : startsWith "*".toList l = false) :
    onLine u p s l = (s, false) := by
  simp only [onLine, hs, hl]
  simp

theorem onLine_stage1_ok {u p : Str} {s : Session} {l : Str} (hs : s.stage = 1)
    (hl : startsWith "A1".toList l = true) (hok : testOK l = true) :
    onLine u p s l = ({ send s selectCmd with stage := 2 }, false) := by
  simp only [onLine, hs, hl, hok]
  simp

theorem onLine_stage1_fail {u p : Str} {s : Session} {l : Str} (hs : s.stage = 1)
    (hl : startsWith "A1".toList l = true) (hok : testOK l = false) :
    onLine u p s l = (reject "IMAP login failed".toList (socketEnd s), true) := by
  simp only [onLine, hs, hl, hok]
  simp

theorem onLine_stage1_other {u p : Str} {s : Session} {l : Str} (hs : s.stage = 1)
    (hl : startsWith "A1".toList l = false) :
    onLine u p s l = (s, false) := by
  simp only [onLine, hs, hl]
  simp

theorem onLine_stage2_ok {u p : Str} {s : Session} {l : Str} (hs : s.stage = 2)
    (hl : startsWith "A2".toList l = true) (hok : testOK l = true) :
    onLine u p s l =
      ({ send (recordExists s l) (fetchCmd (seqOf (recordExists s l).existsCount))
          with stage := 3 }, false) := by
  simp only [onLine, hs, hl, hok]
  simp

theorem onLine_stage2_fail {u p : Str} {s : Session} {l : Str} (hs : s.stage = 2)
    (hl : startsWith "A2".toList l = true) (hok : testOK l = false) :
    onLine u p s l =
      (reject "IMAP select mailbox failed".toList (socketEnd (recordExists s l)), true) := by
  simp only [onLine, hs, hl, hok]
  simp

theorem onLine_stage3_ok {u p : Str} {s : Session} {l : Str} (hs : s.stage = 3)
    (hl : startsWith "A3".toList l = true) (hok : testOK l = true) :
    onLine u p s l = (resolve (extractCode s.messageData) (socketEnd s), true) := by
  simp only [onLine, hs, hl, hok, orNull_extractCode]
  simp

theorem onLine_stage3_fail {u p : Str} {s : Session} {l : Str} (hs : s.stage = 3)
    (hl : startsWith "A3".toList l = true) (hok : testOK l = false) :
    onLine u p s l = (reject "IMAP fetch failed".toList (socketEnd s), true) := by
  simp only [onLine, hs, hl, hok]
  simp

theorem onLine_stage3_other {u p : Str} {s : Session} {l : Str} (hs : s.stage = 3)
    (hl : startsWith "A3".toList l = false) :
    onLine u p s l = ({ s with messageData := s.messageData ++ l ++ "\n".toList }, false) := by
  simp only [onLine, hs, hl]
  simp

theorem onLine_stage_other {u p : Str} {s : Session} {l : Str} (hs : 3 < s.stage) :
    onLine u p s l = (s, false) := by
  have h0 : s.stage ≠ 0 := by omega
  have h1 : s.stage ≠ 1 := by omega
  have h2 : s.stage ≠ 2 := by omega
  have h3 : s.stage ≠ 3 := by omega
  simp only [onLine, h0, h1, h2, h3]
  simp

theorem matchExists_of_tag {l : Str} (h : startsWith "A2".toList l = true) :
    matchExists l = none := by
  apply matchExists_of_not_star
  cases l with
  | nil => rfl
  | cons c cs =>
    have hc : c = 'A' := by
      simp [startsWith] at h
      exact h.1.symm
    subst hc
    rfl

theorem recordExists_of_tag (s : Session) {l : Str} (h : startsWith "A2".toList l = true) :
    recordExists s l = s := by
  simp [recordExists, matchExists_of_tag h]

theorem joinLines_cons (l : Str) (ls : List Str) :
    joinLines (l :: ls) = l ++ "\n".toList ++ joinLines ls := by
  simp [joinLines]

theorem processLines_stage3 (u p : Str) (ls : List Str) : ∀ (s : Session) (rest : List Str),
    s.stage = 3 → (∀ x ∈ ls, startsWith "A3".toList x = false) →
    processLines u p s (ls ++ rest) =
      processLines u p { s with messageData := s.messageData ++ joinLines ls } rest := by
  induction ls with
  | nil => intro s rest _ _; simp [joinLines]
  | cons l ls ih =>
    intro s rest hs hls
    have hl := hls l (by simp)
    have h1 := onLine_stage3_other (u := u) (p := p) hs hl
    have hc : (onLine u p s l).2 = false := by rw [h1]
    rw [List.cons_append, processLines_cons_continue hc, h1]
    dsimp only
    rw [ih { s with messageData := s.messageData ++ l ++ "\n".toList } rest hs
      (fun x hx => hls x (by simp [hx])), joinLines_cons]
    simp

/-! ### Invariants of the handlers -/

theorem resolve_stage (c : Option Str) (s : Session) : (resolve c s).stage = s.stage := by
  unfold resolve
  cases s.outcome <;> rfl

theorem resolve_written (c : Option Str) (s : Session) : (resolve c s).written = s.written := by
  unfold resolve
  cases s.outcome <;> rfl

theorem reject_stage (m : Str) (s : Session) : (reject m s).stage = s.stage := by
  unfold reject
  cases s.outcome <;> rfl

theorem reject_written (m : Str) (s : Session) : (reject m s).written = s.written := by
  unfold reject
  cases s.outcome <;> rfl

theorem resolve_outcome_of_some {s : Session} {o : Outcome} (h : s.outcome = some o)
    (c : Option Str) : (resolve c s).outcome = some o := by
  simp [resolve, h]

theorem reject_outcome_of_some {s : Session} {o : Outcome} (h : s.outcome = some o)
    (m : Str) : (reject m s).outcome = some o := by
  simp [reject, h]

/-- A property of sessions that every handler keeps is kept by every sequence
of events. -/
theorem run_preserves (P : Session → Prop) (u p : Str)
    (hline : ∀ s l, P s → P (onLine u p s l).1)
    (hbuf : ∀ (s : Session) (b : Str), P s → P { s with buffer := b })
    (hres : ∀ s c, P s → P (resolve c s))
    (hrej : ∀ s m, P s → P (reject m s)) :
    ∀ (es : List Event) (s : Session), P s → P (run u p s es) := by
  have hlines : ∀ (ls : List Str) (s : Session), P s → P (processLines u p s ls) := by
    intro ls
    induction ls with
    | nil => intro s h; exact h
    | cons l ls ih =>
      intro s h
      unfold processLines
      split
      · exact hline s l h
      · exact ih _ (hline s l h)
  intro es
  induction es with
  | nil => intro s h; exact h
  | cons e es ih =>
    intro s h
    apply ih
    cases e with
    | data chunk => exact hlines _ _ (hbuf s _ h)
    | error m => exact hrej s m h
    | finish =>
      show P (onEnd s)
      unfold onEnd
      split
      · exact hres s none h
      · exact h

theorem onLine_outcome_of_some (u p : Str) (s : Session) (l : Str) {o : Outcome}
    (h : s.outcome = some o) : (onLine u p s l).1.outcome = some o := by
  unfold onLine
  split_ifs <;>
    simp [send, reject, resolve, socketEnd, recordExists_outcome, h]

/-- What one line does to the commands written and to the stage. -/
theorem onLine_written_stage (u p : Str) (s : Session) (l : Str) :
    ((onLine u p s l).1.written = s.written ∧ (onLine u p s l).1.stage = s.stage) ∨
      (s.stage = 0 ∧ startsWith "*".toList l = true ∧
        (onLine u p s l).1.written = s.written ++ [loginCmd u p ++ "\r\n".toList] ∧
        (onLine u p s l).1.stage = 1) ∨
      (s.stage = 1 ∧ startsWith "A1".toList l = true ∧ testOK l = true ∧
        (onLine u p s l).1.written = s.written ++ [selectCmd ++ "\r\n".toList] ∧
        (onLine u p s l).1.stage = 2) ∨
      (s.stage = 2 ∧ startsWith "A2".toList l = true ∧ testOK l = true ∧
        ∃ n, 1 ≤ n ∧
          (onLine u p s l).1.written = s.written ++ [fetchCmd n ++ "\r\n".toList] ∧
          (onLine u p s l).1.stage = 3) := by
  by_cases h0 : s.stage = 0
  · by_cases hl : startsWith "*".toList l = true
    · right; left
      rw [onLine_stage0_star h0 hl]
      exact ⟨h0, hl, rfl, rfl⟩
    · left
      rw [onLine_stage0_other h0 (by simpa using hl)]
      exact ⟨rfl, rfl⟩
  by_cases h1 : s.stage = 1
  · by_cases hl : startsWith "A1".toList l = true
    · by_cases hok : testOK l = true
      · right; right; left
        rw [onLine_stage1_ok h1 hl hok]
        exact ⟨h1, hl, hok, rfl, rfl⟩
      · left
        rw [onLine_stage1_fail h1 hl (by simpa using hok)]
        exact ⟨reject_written _ _, reject_stage _ _⟩
    · left
      rw [onLine_stage1_other h1 (by simpa using hl)]
      exact ⟨rfl, rfl⟩
  by_cases h2 : s.stage = 2
  · by_cases hl : startsWith "A2".toList l = true
    · by_cases hok : testOK l = true
      · right; right; right
        rw [onLine_stage2_ok h2 hl hok, recordExists_of_tag s hl]
        exact ⟨h2, hl, hok, seqOf s.existsCount, one_le_seqOf _, rfl, rfl⟩
      · left
        rw [onLine_stage2_fail h2 hl (by simpa using hok), recordExists_of_tag s hl]
        exact ⟨reject_written _ _, reject_stage _ _⟩
    · left
      rw [onLine_stage2_other h2 (by simpa using hl)]
      exact ⟨recordExists_written _ _, recordExists_stage _ _⟩
  by_cases h3 : s.stage = 3
  · by_cases hl : startsWith "A3".toList l = true
    · by_cases hok : testOK l = true
      · left
        rw [onLine_stage3_ok h3 hl hok]
        exact ⟨resolve_written _ _, resolve_stage _ _⟩
      · left
        rw [onLine_stage3_fail h3 hl (by simpa using hok)]
        exact ⟨reject_written _ _, reject_stage _ _⟩
    · left
      rw [onLine_stage3_other h3 (by simpa using hl)]
      exact ⟨rfl, rfl⟩
  · left
    rw [onLine_stage_other (by omega)]
    exact ⟨rfl, rfl⟩

theorem seqInv_onLine (u p : Str) (s : Session) (l : Str) (h : SeqInv u p s) :
    SeqInv u p (onLine u p s l).1 := by
  obtain ⟨h3, n, hn, hw⟩ := h
  rcases onLine_written_stage u p s l with ⟨e1, e2⟩ | ⟨hs, _, e1, e2⟩ | ⟨hs, _, _, e1, e2⟩ |
    ⟨hs, _, _, m, hm, e1, e2⟩
  · exact ⟨by rw [e2]; exact h3, n, hn, by rw [e1, e2]; exact hw⟩
  · refine ⟨by rw [e2]; omega, n, hn, ?_⟩
    rw [e1, e2, hw, hs]
    rfl
  · refine ⟨by rw [e2]; omega, n, hn, ?_⟩
    rw [e1, e2, hw, hs]
    rfl
  · refine ⟨by rw [e2], m, hm, ?_⟩
    rw [e1, e2, hw, hs]
    rfl

theorem seqInv_run (u p : Str) (es : List Event) (s : Session) (h : SeqInv u p s) :
    SeqInv u p (run u p s es) := by
  refine run_preserves (SeqInv u p) u p (seqInv_onLine u p) ?_ ?_ ?_ es s h
  · intro s b h; exact h
  · intro s c h
    unfold SeqInv
    rw [resolve_stage, resolve_written]
    exact h
  · intro s m h
    unfold SeqInv
    rw [reject_stage, reject_written]
    exact h

theorem seqInv_initial (u p : Str) : SeqInv u p initial :=
  ⟨by decide, 1, Nat.le_refl 1, rfl⟩

theorem stage_le_onLine (u p : Str) (s : Session) (l : Str) :
    s.stage ≤ (onLine u p s l).1.stage := by
  rcases onLine_written_stage u p s l with ⟨_, e2⟩ | ⟨hs, _, _, e2⟩ | ⟨hs, _, _, _, e2⟩ |
    ⟨hs, _, _, m, _, _, e2⟩ <;> omega

theorem stage_le_run (u p : Str) (es : List Event) (s : Session) :
    s.stage ≤ (run u p s es).stage := by
  refine run_preserves (fun t => s.stage ≤ t.stage) u p ?_ ?_ ?_ ?_ es s (Nat.le_refl _)
  · intro t l h; exact Nat.le_trans h (stage_le_onLine u p t l)
  · intro t b h; exact h
  · intro t c h
    show s.stage ≤ (resolve c t).stage
    rw [resolve_stage]; exact h
  · intro t m h
    show s.stage ≤ (reject m t).stage
    rw [reject_stage]; exact h

theorem outcome_run (u p : Str) (es : List Event) (s : Session) {o : Outcome}
    (h : s.outcome = some o) : (run u p s es).outcome = some o := by
  refine run_preserves (fun t => t.outcome = some o) u p ?_ ?_ ?_ ?_ es s h
  · intro t l h; exact onLine_outcome_of_some u p t l h
  · intro t b h; exact h
  · intro t c h; exact resolve_outcome_of_some h c
  · intro t m h; exact reject_outcome_of_some h m

theorem written_run_stage3 (u p : Str) (es : List Event) (s : Session) (h : s.stage = 3) :
    (run u p s es).written = s.written := by
  have key := run_preserves (fun t => t.stage = 3 ∧ t.written = s.written) u p ?_ ?_ ?_ ?_ es s
    ⟨h, rfl⟩
  · exact key.2
  · rintro t l ⟨h1, h2⟩
    rcases onLine_written_stage u p t l with ⟨e1, e2⟩ | ⟨hs, _, _, _⟩ | ⟨hs, _, _, _, _⟩ |
      ⟨hs, _, _, m, _, _, _⟩
    · exact ⟨by rw [e2]; exact h1, by rw [e1]; exact h2⟩
    · omega
    · omega
    · omega
  · intro t b h; exact h
  · rintro t c ⟨h1, h2⟩
    exact ⟨by rw [resolve_stage]; exact h1, by rw [resolve_written]; exact h2⟩
  · rintro t m ⟨h1, h2⟩
    exact ⟨by rw [reject_stage]; exact h1, by rw [reject_written]; exact h2⟩

/-! ### The framer keeps every character -/

theorem rebuild_nil (r : Str) : rebuild [] [] r = r := by
  simp [rebuild]

theorem rebuild_cons (l t : Str) (ls ts : List Str) (r : Str) :
    rebuild (l :: ls) (t :: ts) r = l ++ t ++ rebuild ls ts r := by
  simp [rebuild]

theorem stripCR_terminator (cur : Str) :
    ∃ t : Str, (t = "\n".toList ∨ t = "\r\n".toList) ∧ stripCR cur ++ t = cur ++ "\n".toList ∧
      ('\n' ∉ cur → '\n' ∉ stripCR cur) := by
  by_cases h : cur.getLast? = some '\r'
  · have hc : cur.dropLast ++ ['\r'] = cur := List.dropLast_append_getLast? '\r' (by simp [h])
    have hs : stripCR cur = cur.dropLast := by simp [stripCR, h]
    refine ⟨"\r\n".toList, Or.inr rfl, ?_, ?_⟩
    · rw [hs]
      conv_rhs => rw [← hc]
      simp
    · intro hn hm
      rw [hs] at hm
      exact hn (List.mem_of_mem_dropLast hm)
  · refine ⟨"\n".toList, Or.inl rfl, ?_, ?_⟩
    · rw [stripCR_of_ne h]
    · rw [stripCR_of_ne h]
      exact id

theorem splitStrip_spec (s : Str) : ∀ cur : Str, '\n' ∉ cur →
    ∃ (ls : List Str) (r : Str) (ts : List Str),
      splitStrip cur s = ls ++ [r] ∧ ts.length = ls.length ∧
        (∀ t ∈ ts, t = "\n".toList ∨ t = "\r\n".toList) ∧
        cur ++ s = rebuild ls ts r ∧ (∀ l ∈ ls, '\n' ∉ l) ∧ '\n' ∉ r := by
  induction s with
  | nil =>
    intro cur h
    exact ⟨[], cur, [], by simp [splitStrip], rfl, by simp, by simp [rebuild], by simp, h⟩
  | cons a rest ih =>
    intro cur h
    by_cases ha : a = '\n'
    · subst ha
      obtain ⟨ls, r, ts, h1, h2, h3, h4, h5, h6⟩ := ih [] (by simp)
      obtain ⟨t, ht, hst, hno⟩ := stripCR_terminator cur
      refine ⟨stripCR cur :: ls, r, t :: ts, ?_, by simp [h2], ?_, ?_, ?_, h6⟩
      · rw [splitStrip_cons_lf, h1]
        rfl
      · intro x hx
        rcases List.mem_cons.1 hx with e | e
        · rw [e]; exact ht
        · exact h3 x e
      · rw [rebuild_cons, hst, ← h4]
        simp
      · intro l hl
        rcases List.mem_cons.1 hl with e | e
        · rw [e]; exact hno h
        · exact h5 l e
    · obtain ⟨ls, r, ts, h1, h2, h3, h4, h5, h6⟩ := ih (cur ++ [a]) (by
        simp [h, Ne.symm ha])
      refine ⟨ls, r, ts, ?_, h2, h3, ?_, h5, h6⟩
      · rw [splitStrip_cons_of_ne ha, h1]
      · rw [← h4]
        simp

theorem splitStrip_length (s : Str) : ∀ cur : Str,
    (splitStrip cur s).length = s.count '\n' + 1 := by
  induction s with
  | nil => intro cur; simp [splitStrip]
  | cons a rest ih =>
    intro cur
    by_cases ha : a = '\n'
    · subst ha
      rw [splitStrip_cons_lf, List.length_cons, ih, List.count_cons_self]
    · rw [splitStrip_cons_of_ne ha, ih, List.count_cons_of_ne (Ne.symm ha)]

/-! ### Further lemmas on `extractCode` -/

theorem isDigit_eq_false_of_not_word {c : Char} (h : isWordChar c = false) :
    isDigit c = false := by
  cases hd : isDigit c with
  | false => rfl
  | true => rw [isWordChar_of_isDigit hd] at h; exact absurd h (by simp)

theorem isCodeAt_digit_of_word {t pre c post : Str} (h : IsCodeAt isWordChar t pre c post) :
    IsCodeAt isDigit t pre c post :=
  ⟨h.1, h.2.1, h.2.2.1, fun x hx => isDigit_eq_false_of_not_word (h.2.2.2.1 x hx),
    fun x hx => isDigit_eq_false_of_not_word (h.2.2.2.2 x hx)⟩

theorem extractCode_some_first {t c : Str} (h : extractCode t = some c) :
    ∃ pre post, IsCodeAt isWordChar t pre c post ∧
      ∀ pre2 code2 post2, IsCodeAt isWordChar t pre2 code2 post2 → pre.length ≤ pre2.length := by
  rw [extractCode_eq_searchCode] at h
  obtain ⟨mid, post, hr, hmin⟩ := searchCode_some t none c h
  exact ⟨mid, post, (runAt_none_iff t mid c post).1 hr,
    fun pre2 code2 post2 h2 => hmin pre2 code2 post2 ((runAt_none_iff t pre2 code2 post2).2 h2)⟩

theorem extractCode_nil : extractCode [] = none := rfl

theorem extractCode_of_six_digits {c : Str} (hlen : c.length = 6)
    (hd : ∀ x ∈ c, isDigit x = true) : extractCode c = some c := by
  rw [extractCode_eq_searchCode]
  have hm : matchCodeAt none c = some c :=
    (matchCodeAt_eq_some none c c).2 ⟨[], by simp, hlen, hd, rfl, rfl⟩
  cases c with
  | nil => simp at hlen
  | cons a as =>
    unfold searchCode
    rw [hm]

/-! ## Lemmas on the handler -/

theorem expectedSecret_ne_nil (env : Option Str) : expectedSecret env ≠ [] := by
  unfold expectedSecret
  cases env with
  | none => decide
  | some s =>
    by_cases h : s = []
    · simp only [h, if_true]
      decide
    · simp only [h, if_false]
      exact h

theorem secretRejected_eq_false_iff (env : Option Str) (f : SecretField) :
    secretRejected (expectedSecret env) f = false ↔ f = SecretField.text (expectedSecret env) := by
  have hne := expectedSecret_ne_nil env
  cases f with
  | missing => simp [secretRejected]
  | text s =>
    simp only [secretRejected, Bool.or_eq_false_iff, decide_eq_false_iff_not, ne_eq,
      not_not, SecretField.text.injEq]
    constructor
    · intro h; exact h.2
    · intro h; exact ⟨by rw [h]; exact hne, h⟩
  | other b => simp [secretRejected]

theorem errorResponse_status (m : Str) : (errorResponse m).statusCode = 500 := rfl

theorem handler_not_post {env : Option Str} {event : HttpEvent} {fetched : Outcome}
    (h : event.httpMethod ≠ "POST".toList) :
    handler env event fetched
      = { statusCode := 405, body := ResponseBody.error "Method not allowed".toList } := by
  unfold handler
  rw [if_pos h]

theorem handler_throws {env : Option Str} {event : HttpEvent} {fetched : Outcome} {m : Str}
    (h : event.httpMethod = "POST".toList)
    (hb : event.body = ParsedBody.invalid m ∨ event.body = ParsedBody.null m) :
    handler env event fetched = errorResponse m := by
  unfold handler
  rw [if_neg (fun hn => hn h)]
  rcases hb with hb | hb <;> rw [hb]

theorem handler_unauthorized {env : Option Str} {event : HttpEvent} {fetched : Outcome}
    {f : SecretField} (h : event.httpMethod = "POST".toList)
    (hb : event.body = ParsedBody.object f)
    (hr : secretRejected (expectedSecret env) f = true) :
    handler env event fetched
      = { statusCode := 401, body := ResponseBody.error "Unauthorized".toList } := by
  unfold handler
  rw [if_neg (fun hn => hn h), hb]
  simp only [hr, if_true]

theorem handler_authorized {env : Option Str} {event : HttpEvent} (fetched : Outcome)
    (h : event.httpMethod = "POST".toList)
    (hb : event.body = ParsedBody.object (SecretField.text (expectedSecret env))) :
    handler env event fetched =
      match fetched with
      | Outcome.rejected message => errorResponse message
      | Outcome.resolved none =>
        { statusCode := 404, body := ResponseBody.error "Verification code not found".toList }
      | Outcome.resolved (some c) =>
        if c = [] then
          { statusCode := 404, body := ResponseBody.error "Verification code not found".toList }
        else
          { statusCode := 200, body := ResponseBody.code c } := by
  have hr : secretRejected (expectedSecret env) (SecretField.text (expectedSecret env)) = false :=
    (secretRejected_eq_false_iff env _).2 rfl
  unfold handler
  rw [if_neg (fun hn => hn h), hb]
  simp only [hr, Bool.false_eq_true, if_false]

theorem errorResponse_of_ne_nil {m : Str} (h : m ≠ []) :
    errorResponse m = { statusCode := 500, body := ResponseBody.error m } := by
  unfold errorResponse
  rw [if_neg h]

/-! ### Extraction works line by line -/

theorem matchCodeAt_congr_prev {p q : Option Char} (h : isWordAt p = isWordAt q) (r : Str) :
    matchCodeAt p r = matchCodeAt q r := by
  unfold matchCodeAt wordBoundary
  rw [h]

theorem searchCode_congr_prev {p q : Option Char} (h : isWordAt p = isWordAt q) (r : Str) :
    searchCode p r = searchCode q r := by
  cases r with
  | nil => simp [searchCode, matchCodeAt_nil]
  | cons a as =>
    unfold searchCode
    rw [matchCodeAt_congr_prev h]

theorem isDigit_lf : isDigit '\n' = false := by decide

theorem isWordAt_lf : isWordAt (some '\n') = false := by decide

theorem matchCodeAt_append_lf (prev : Option Char) (r y : Str) :
    matchCodeAt prev (r ++ '\n' :: y) = matchCodeAt prev r := by
  apply Option.ext
  intro d
  show matchCodeAt prev (r ++ '\n' :: y) = some d ↔ matchCodeAt prev r = some d
  rw [matchCodeAt_eq_some, matchCodeAt_eq_some]
  constructor
  · rintro ⟨post, h1, h2, h3, h4, h5⟩
    rw [List.nil_append] at h1
    rcases List.append_eq_append_iff.1 h1 with ⟨a, ha1, ha2⟩ | ⟨c, hc1, hc2⟩
    · cases a with
      | nil =>
        refine ⟨[], ?_, h2, h3, h4, rfl⟩
        simpa using ha1.symm
      | cons z zs =>
        have hz : z = '\n' := by
          simp only [List.cons_append, List.cons.injEq] at ha2
          exact ha2.1.symm
        have hmem : '\n' ∈ d := by
          rw [ha1, hz]; simp
        have := h3 '\n' hmem
        rw [isDigit_lf] at this
        exact absurd this (by simp)
    · refine ⟨c, by rw [List.nil_append]; exact hc1, h2, h3, h4, ?_⟩
      cases c with
      | nil => rfl
      | cons z zs =>
        rw [hc2] at h5
        simpa using h5
  · rintro ⟨post, h1, h2, h3, h4, h5⟩
    rw [List.nil_append] at h1
    refine ⟨post ++ '\n' :: y, ?_, h2, h3, h4, ?_⟩
    · rw [h1]; simp
    · cases post with
      | nil => exact isWordAt_lf
      | cons z zs => simpa using h5

theorem searchCode_cons (prev : Option Char) (c : Char) (cs : Str) :
    searchCode prev (c :: cs) =
      match matchCodeAt prev (c :: cs) with
      | some d => some d
      | none => searchCode (some c) cs := by
  rw [searchCode]

theorem searchCode_append_lf (x : Str) : ∀ (prev : Option Char) (y : Str),
    searchCode prev (x ++ '\n' :: y) = (searchCode prev x).or (searchCode none y) := by
  induction x with
  | nil =>
    intro prev y
    have h0 : matchCodeAt prev ('\n' :: y) = none := by
      have := matchCodeAt_append_lf prev [] y
      rw [List.nil_append, matchCodeAt_nil] at this
      exact this
    have h1 : searchCode prev [] = none := by simp [searchCode, matchCodeAt_nil]
    rw [List.nil_append, h1, searchCode_cons, h0]
    have hw : isWordAt (some '\n') = isWordAt none := isWordAt_lf
    exact searchCode_congr_prev hw y
  | cons a as ih =>
    intro prev y
    have hm := matchCodeAt_append_lf prev (a :: as) y
    rw [List.cons_append] at hm ⊢
    rw [searchCode_cons, searchCode_cons, hm]
    cases matchCodeAt prev (a :: as) with
    | some d => rfl
    | none => exact ih (some a) y

theorem extractCode_append_lf (x y : Str) :
    extractCode (x ++ '\n' :: y) = (extractCode x).or (extractCode y) := by
  rw [extractCode_eq_searchCode, extractCode_eq_searchCode, extractCode_eq_searchCode]
  exact searchCode_append_lf x none y

theorem extractCode_joinLines (ls : List Str) :
    extractCode (joinLines ls) = ls.findSome? extractCode := by
  induction ls with
  | nil => rfl
  | cons l ls ih =>
    have h : joinLines (l :: ls) = l ++ '\n' :: joinLines ls := by
      rw [joinLines_cons]
      simp
    rw [h, extractCode_append_lf, ih, List.findSome?_cons]
    cases extractCode l <;> rfl

theorem processLines_stage3_outcome (u p : Str) (s : Session) (ls : List Str) (l : Str)
    (hs : s.stage = 3) (hm : s.messageData = []) (ho : s.outcome = none)
    (hls : ∀ x ∈ ls, startsWith "A3".toList x = false)
    (hl : startsWith "A3".toList l = true) (hok : testOK l = true) :
    (processLines u p s (ls ++ [l])).outcome
      = some (Outcome.resolved (ls.findSome? extractCode)) := by
  have h2 := processLines_stage3 u p ls s [l] hs hls
  rw [hm, List.nil_append] at h2
  have hs2 : ({ s with messageData := joinLines ls } : Session).stage = 3 := hs
  have h3 := onLine_stage3_ok (u := u) (p := p) hs2 hl hok
  have hstop : (onLine u p { s with messageData := joinLines ls } l).2 = true := by rw [h3]
  rw [processLines_cons_stop hstop, h3] at h2
  rw [h2, ← extractCode_joinLines]
  simp [resolve, socketEnd, ho]

theorem findSome?_eq_none_of_forall {ls : List Str}
    (h : ∀ x ∈ ls, extractCode x = none) : ls.findSome? extractCode = none := by
  induction ls with
  | nil => rfl
  | cons a as ih =>
    rw [List.findSome?_cons, h a (by simp)]
    exact ih (fun x hx => h x (by simp [hx]))

theorem resolve_messageData (c : Option Str) (s : Session) :
    (resolve c s).messageData = s.messageData := by
  unfold resolve
  cases s.outcome <;> rfl

theorem reject_messageData (m : Str) (s : Session) :
    (reject m s).messageData = s.messageData := by
  unfold reject
  cases s.outcome <;> rfl

theorem onLine_stage3_tagged {u p : Str} {s : Session} {l : Str} (hs : s.stage = 3)
    (hl : startsWith "A3".toList l = true) :
    (onLine u p s l).2 = true ∧ (onLine u p s l).1.messageData = s.messageData := by
  by_cases hok : testOK l = true
  · rw [onLine_stage3_ok hs hl hok]
    exact ⟨rfl, resolve_messageData _ _⟩
  · rw [onLine_stage3_fail hs hl (by simpa using hok)]
    exact ⟨rfl, reject_messageData _ _⟩

/-! ### The framing is the only one that splits at the line feeds -/

theorem splitStrip_of_no_lf (s : Str) : ∀ cur : Str, '\n' ∉ s →
    splitStrip cur s = [cur ++ s] := by
  induction s with
  | nil => intro cur _; simp [splitStrip]
  | cons a rest ih =>
    intro cur h
    have ha : a ≠ '\n' := by
      intro e; apply h; simp [e]
    have hr : '\n' ∉ rest := by
      intro e; apply h; simp [e]
    rw [splitStrip_cons_of_ne ha, ih _ hr]
    simp

theorem stripCR_terminator_greedy (cur : Str) (h : '\n' ∉ cur) :
    ∃ t : Str, stripCR cur ++ t = cur ++ "\n".toList ∧ '\n' ∉ stripCR cur ∧
      (t = "\r\n".toList ∨ (t = "\n".toList ∧ (stripCR cur).getLast? ≠ some '\r')) := by
  by_cases hc : cur.getLast? = some '\r'
  · have hd : cur.dropLast ++ ['\r'] = cur := List.dropLast_append_getLast? '\r' (by simp [hc])
    have hs : stripCR cur = cur.dropLast := by simp [stripCR, hc]
    refine ⟨"\r\n".toList, ?_, ?_, Or.inl rfl⟩
    · rw [hs]
      conv_rhs => rw [← hd]
      simp
    · rw [hs]
      exact fun hm => h (List.mem_of_mem_dropLast hm)
  · refine ⟨"\n".toList, ?_, ?_, Or.inr ⟨rfl, ?_⟩⟩
    · rw [stripCR_of_ne hc]
    · rw [stripCR_of_ne hc]; exact h
    · rw [stripCR_of_ne hc]; exact hc

theorem splitStrip_isFraming (s : Str) : ∀ cur : Str, '\n' ∉ cur →
    ∃ (ls : List Str) (r : Str), splitStrip cur s = ls ++ [r] ∧ IsFraming (cur ++ s) ls r := by
  induction s with
  | nil =>
    intro cur h
    exact ⟨[], cur, by simp [splitStrip], [], List.Forall₂.nil, h, by simp [rebuild]⟩
  | cons a rest ih =>
    intro cur h
    by_cases ha : a = '\n'
    · subst ha
      obtain ⟨ls, r, h1, ts, h2, h3, h4⟩ := ih [] (by simp)
      obtain ⟨t, hst, hno, ht⟩ := stripCR_terminator_greedy cur h
      refine ⟨stripCR cur :: ls, r, ?_, t :: ts, List.Forall₂.cons ⟨hno, ht⟩ h2, h3, ?_⟩
      · rw [splitStrip_cons_lf, h1]
        rfl
      · rw [rebuild_cons, hst, ← h4]
        simp
    · obtain ⟨ls, r, h1, ts, h2, h3, h4⟩ := ih (cur ++ [a]) (by simp [h, Ne.symm ha])
      refine ⟨ls, r, ?_, ts, h2, h3, ?_⟩
      · rw [splitStrip_cons_of_ne ha, h1]
      · rw [← h4]
        simp

theorem splitStrip_of_isFraming (ls : List Str) : ∀ (s r : Str), IsFraming s ls r →
    splitStrip [] s = ls ++ [r] := by
  induction ls with
  | nil =>
    rintro s r ⟨ts, h2, h3, h4⟩
    cases h2
    rw [h4, rebuild_nil, splitStrip_of_no_lf r [] h3]
    rfl
  | cons l ls ih =>
    rintro s r ⟨ts, h2, h3, h4⟩
    cases h2 with
    | cons hlt hrest =>
      rename_i t ts'
      obtain ⟨hl, ht⟩ := hlt
      have hih := ih (rebuild ls ts' r) r ⟨ts', hrest, h3, rfl⟩
      rw [h4, rebuild_cons, List.append_assoc, splitStrip_append_left l [] _ hl, List.nil_append]
      rcases ht with ht | ⟨ht, hcr⟩
      · have e : t ++ rebuild ls ts' r = '\r' :: '\n' :: rebuild ls ts' r := by
          rw [ht]; rfl
        rw [e, splitStrip_cons_of_ne (by decide), splitStrip_cons_lf, stripCR_append_cr, hih]
        rfl
      · have e : t ++ rebuild ls ts' r = '\n' :: rebuild ls ts' r := by
          rw [ht]; rfl
        rw [e, splitStrip_cons_lf, stripCR_of_ne hcr, hih]
        rfl

theorem frame_eq_iff_isFraming (b c : Str) (lines : List Str) (r : Str) :
    IsFraming (b ++ c) lines r ↔ frame b c = (lines, r) := by
  have hfr : ∀ (ls : List Str) (x : Str), splitStrip [] (b ++ c) = ls ++ [x] →
      frame b c = (ls, x) := by
    intro ls x h
    apply Prod.ext
    · rw [frame_fst, splitLines_nil_eq, h]; simp
    · rw [frame_snd, splitLines_nil_eq, h]; simp
  constructor
  · intro h
    exact hfr lines r (splitStrip_of_isFraming lines (b ++ c) r h)
  · intro h
    obtain ⟨ls, x, h1, h2⟩ := splitStrip_isFraming (b ++ c) [] (by simp)
    rw [List.nil_append] at h2
    have := hfr ls x h1
    rw [h] at this
    injection this with e1 e2
    rw [e1, e2]
    exact h2

/-! ### The pattern of the message count against its reading -/

theorem takeWhile_append_stop {p : Char → Bool} (a : Str) : ∀ b : Str,
    (∀ c ∈ a, p c = true) → (∀ c, b.head? = some c → p c = false) →
    List.takeWhile p (a ++ b) = a ∧ List.dropWhile p (a ++ b) = b := by
  induction a with
  | nil =>
    intro b _ hb
    cases b with
    | nil => exact ⟨rfl, rfl⟩
    | cons x xs =>
      have hx : p x = false := hb x rfl
      simp [List.takeWhile_cons, List.dropWhile_cons, hx]
  | cons x xs ih =>
    intro b ha hb
    have hx : p x = true := ha x (by simp)
    obtain ⟨h1, h2⟩ := ih b (fun c hc => ha c (by simp [hc])) hb
    simp [List.takeWhile_cons, List.dropWhile_cons, hx, h1, h2]

theorem isSpace_eq_false_of_isDigit {c : Char} (h : isDigit c = true) : isSpace c = false := by
  simp only [isDigit, Bool.and_eq_true, decide_eq_true_eq] at h
  simp only [isSpace, Bool.or_eq_false_iff, Bool.and_eq_false_imp, decide_eq_false_iff_not,
    decide_eq_true_eq]
  omega

theorem isDigit_eq_false_of_isSpace {c : Char} (h : isSpace c = true) : isDigit c = false := by
  cases hd : isDigit c with
  | false => rfl
  | true => rw [isSpace_eq_false_of_isDigit hd] at h; exact absurd h (by simp)

theorem parseInt_append (ds : Str) (c : Char) :
    parseInt (ds ++ [c]) = 10 * parseInt ds + (c.toNat - 48) := by
  simp [parseInt, List.foldl_append]

theorem parseInt_eq_ofDigits (ds : Str) :
    parseInt ds = Nat.ofDigits 10 (ds.reverse.map (fun c => c.toNat - 48)) := by
  induction ds using List.reverseRecOn with
  | nil => simp [parseInt]
  | append_singleton xs x ih =>
    rw [parseInt_append, ih]
    simp [Nat.ofDigits_cons]
    omega

theorem char_eq_of_toNat {c : Char} {n : Nat} (h : c.toNat = n) : c = Char.ofNat n := by
  rw [← h, Char.ofNat_toNat]

theorem eqIgnoreCase_existsLetters {pq : Char × Char} (hp : pq ∈ existsLetters) (c : Char) :
    eqIgnoreCase pq.1 c = true ↔ c = pq.1 ∨ c = pq.2 := by
  have hlow : pq.2 = Char.ofNat (pq.1.toNat + 32) := by
    simp only [existsLetters] at hp
    have hp' : pq ∈ [('E', 'e'), ('X', 'x'), ('I', 'i'), ('S', 's'), ('T', 't'), ('S', 's')] := hp
    simp only [List.mem_cons, List.mem_singleton, List.not_mem_nil, or_false] at hp'
    rcases hp' with e | e | e | e | e | e <;> rw [e] <;> decide
  simp only [eqIgnoreCase, Bool.or_eq_true, decide_eq_true_eq]
  constructor
  · rintro (h | h)
    · exact Or.inl h
    · exact Or.inr (by rw [hlow]; exact char_eq_of_toNat h)
  · rintro (h | h)
    · exact Or.inl h
    · right
      have hp' : pq ∈ [('E', 'e'), ('X', 'x'), ('I', 'i'), ('S', 's'), ('T', 't'), ('S', 's')] := hp
      simp only [List.mem_cons, List.mem_singleton, List.not_mem_nil, or_false] at hp'
      rw [h]
      rcases hp' with e | e | e | e | e | e <;> rw [e] <;> decide

theorem startsWithIgnoreCase_iff (pairs : List (Char × Char)) :
    (∀ pq ∈ pairs, pq ∈ existsLetters) → ∀ r : Str,
    (startsWithIgnoreCase (pairs.map Prod.fst) r = true ↔
      ∃ kw rest : Str, r = kw ++ rest ∧
        List.Forall₂ (fun c pq => c = pq.1 ∨ c = pq.2) kw pairs) := by
  induction pairs with
  | nil =>
    intro _ r
    simp only [List.map_nil, startsWithIgnoreCase, true_iff]
    exact ⟨[], r, rfl, List.Forall₂.nil⟩
  | cons pq ps ih =>
    intro hp r
    have hpq := eqIgnoreCase_existsLetters (hp pq (by simp))
    have ih' := ih (fun x hx => hp x (by simp [hx]))
    cases r with
    | nil =>
      simp only [List.map_cons, startsWithIgnoreCase]
      constructor
      · intro h; exact absurd h (by simp)
      · rintro ⟨kw, rest, h1, h2⟩
        cases h2 with
        | cons _ _ => simp at h1
    | cons c cs =>
      simp only [List.map_cons, startsWithIgnoreCase, Bool.and_eq_true]
      rw [hpq c, ih' cs]
      constructor
      · rintro ⟨hc, kw, rest, h1, h2⟩
        exact ⟨c :: kw, rest, by rw [h1]; rfl, List.Forall₂.cons hc h2⟩
      · rintro ⟨kw, rest, h1, h2⟩
        cases h2 with
        | cons hc h2' =>
          rename_i k kw'
          simp only [List.cons_append, List.cons.injEq] at h1
          obtain ⟨e1, e2⟩ := h1
          exact ⟨by rw [e1]; exact hc, kw', rest, e2, h2'⟩

theorem matchExists_cons (c : Char) (r1 : Str) :
    matchExists (c :: r1) =
      if c = '*' ∧ (r1.takeWhile isSpace) ≠ []
          ∧ ((r1.dropWhile isSpace).takeWhile isDigit) ≠ []
          ∧ (((r1.dropWhile isSpace).dropWhile isDigit).takeWhile isSpace) ≠ []
          ∧ startsWithIgnoreCase "EXISTS".toList
              (((r1.dropWhile isSpace).dropWhile isDigit).dropWhile isSpace) = true then
        some ((r1.dropWhile isSpace).takeWhile isDigit)
      else
        none := rfl

theorem existsLetters_fst : existsLetters.map Prod.fst = "EXISTS".toList := by decide

theorem matchExists_sound {line ds : Str} (h : matchExists line = some ds) :
    IsExistsLine line (parseInt ds) := by
  cases line with
  | nil => exact absurd h (by simp [matchExists])
  | cons c r1 =>
    rw [matchExists_cons] at h
    split at h
    · rename_i hc
      obtain ⟨hstar, h1, h2, h3, h4⟩ := hc
      injection h with h
      rw [← existsLetters_fst] at h4
      obtain ⟨kw, rest, h5, h6⟩ := (startsWithIgnoreCase_iff existsLetters (fun _ hx => hx) _).1 h4
      refine ⟨r1.takeWhile isSpace, ds, ((r1.dropWhile isSpace).dropWhile isDigit).takeWhile isSpace,
        kw, rest, ?_, h1, fun x hx => List.mem_takeWhile_imp hx, ?_, ?_, h3,
        fun x hx => List.mem_takeWhile_imp hx, h6, parseInt_eq_ofDigits ds⟩
      · have e1 := List.takeWhile_append_dropWhile isSpace r1
        have e2 := List.takeWhile_append_dropWhile isDigit (r1.dropWhile isSpace)
        have e3 := List.takeWhile_append_dropWhile isSpace
          ((r1.dropWhile isSpace).dropWhile isDigit)
        rw [h5] at e3
        rw [← e3] at e2
        rw [h] at e2
        rw [← e2] at e1
        rw [hstar]
        conv_lhs => rw [← e1]
        simp
      · rw [← h]; exact h2
      · intro x hx
        rw [← h] at hx
        exact List.mem_takeWhile_imp hx
    · exact absurd h (by simp)

theorem matchExists_complete {line : Str} {n : Nat} (h : IsExistsLine line n) :
    (matchExists line).map parseInt = some n := by
  obtain ⟨sp1, ds, sp2, kw, rest, h1, h2, h3, h4, h5, h6, h7, h8, h9⟩ := h
  have hkw : ∃ k kw', kw = k :: kw' ∧ (k = 'E' ∨ k = 'e') := by
    cases h8 with
    | cons hk _ => exact ⟨_, _, rfl, hk⟩
  obtain ⟨k, kw', hkw1, hk⟩ := hkw
  have hkspace : isSpace k = false := by
    rcases hk with e | e <;> rw [e] <;> decide
  obtain ⟨d, ds', hds⟩ := List.exists_cons_of_ne_nil h4
  obtain ⟨z, sp2', hsp2⟩ := List.exists_cons_of_ne_nil h6
  have hd : isDigit d = true := h5 d (by rw [hds]; simp)
  have hz : isSpace z = true := h7 z (by rw [hsp2]; simp)
  have s1 := takeWhile_append_stop (p := isSpace) sp1 (ds ++ (sp2 ++ (kw ++ rest))) h3 (by
    intro c hc
    rw [hds] at hc
    simp only [List.cons_append, List.head?_cons, Option.some.injEq] at hc
    rw [← hc]; exact isSpace_eq_false_of_isDigit hd)
  have s2 := takeWhile_append_stop (p := isDigit) ds (sp2 ++ (kw ++ rest)) h5 (by
    intro c hc
    rw [hsp2] at hc
    simp only [List.cons_append, List.head?_cons, Option.some.injEq] at hc
    rw [← hc]; exact isDigit_eq_false_of_isSpace hz)
  have s3 := takeWhile_append_stop (p := isSpace) sp2 (kw ++ rest) h7 (by
    intro c hc
    rw [hkw1] at hc
    simp only [List.cons_append, List.head?_cons, Option.some.injEq] at hc
    rw [← hc]; exact hkspace)
  have hline : line = '*' :: (sp1 ++ (ds ++ (sp2 ++ (kw ++ rest)))) := by
    rw [h1]; simp
  have hsw : startsWithIgnoreCase "EXISTS".toList (kw ++ rest) = true := by
    rw [← existsLetters_fst]
    exact (startsWithIgnoreCase_iff existsLetters (fun _ hx => hx) _).2 ⟨kw, rest, rfl, h8⟩
  rw [hline, matchExists_cons, s1.1, s1.2, s2.1, s2.2, s3.1, s3.2, if_pos ⟨rfl, h2, h4, h6, hsw⟩,
    Option.map_some', h9, parseInt_eq_ofDigits]

theorem matchExists_eq_none_of_not_line {x : Str} (h : ∀ j, ¬ IsExistsLine x j) :
    (matchExists x).map parseInt = none := by
  cases hm : matchExists x with
  | none => rfl
  | some ds => exact absurd (matchExists_sound hm) (h _)

theorem filterMap_exists_eq_nil {ls : List Str} (h : ∀ x ∈ ls, ∀ j, ¬ IsExistsLine x j) :
    ls.filterMap (fun l => (matchExists l).map parseInt) = [] := by
  induction ls with
  | nil => rfl
  | cons a as ih =>
    rw [List.filterMap_cons, matchExists_eq_none_of_not_line (h a (by simp))]
    exact ih (fun x hx => h x (by simp [hx]))

theorem lastExists_of_isLastExists {ls : List Str} {o : Option Nat} (h : IsLastExists ls o) :
    lastExists ls = o := by
  cases o with
  | none =>
    unfold lastExists
    rw [filterMap_exists_eq_nil h]
    rfl
  | some k =>
    obtain ⟨pre, m, post, h1, h2, h3⟩ := h
    unfold lastExists
    rw [h1, List.filterMap_append, List.filterMap_cons, matchExists_complete h2,
      filterMap_exists_eq_nil h3]
    exact List.getLast?_concat _

theorem seqOf_eq_targetSeq (o : Option Nat) : seqOf o = targetSeq o := by
  cases o with
  | none => rfl
  | some n =>
    by_cases h : n = 0
    · simp [seqOf, targetSeq, h]
    · have : 0 < n := Nat.pos_of_ne_zero h
      simp [seqOf, targetSeq, h, this]

theorem not_isExistsLine_of_none {x : Str} (h : matchExists x = none) (j : Nat) :
    ¬ IsExistsLine x j := by
  intro hx
  have := matchExists_complete hx
  rw [h] at this
  exact absurd this (by simp)

/-! ### Nothing is sent after the socket was ended -/

theorem recordExists_ended (s : Session) (l : Str) : (recordExists s l).ended = s.ended := by
  unfold recordExists
  cases matchExists l <;> rfl

theorem resolve_ended (c : Option Str) (s : Session) : (resolve c s).ended = s.ended := by
  unfold resolve
  cases s.outcome <;> rfl

theorem reject_ended (m : Str) (s : Session) : (reject m s).ended = s.ended := by
  unfold reject
  cases s.outcome <;> rfl

theorem onLine_ended (u p : Str) (s : Session) (l : Str) (h : s.ended = true) :
    (onLine u p s l).1.ended = true := by
  unfold onLine
  split_ifs <;>
    simp [send, resolve_ended, reject_ended, socketEnd, recordExists_ended, h]

theorem step_ended (u p : Str) (s : Session) (e : Event) (h : s.ended = true) :
    (step u p s e).ended = true := by
  have key := run_preserves (fun t => t.ended = true) u p (fun t l ht => onLine_ended u p t l ht)
    (fun t b ht => ht) (fun t c ht => by show (resolve c t).ended = true; rw [resolve_ended]; exact ht)
    (fun t m ht => by show (reject m t).ended = true; rw [reject_ended]; exact ht) [e] s h
  exact key

theorem transmitted_of_ended (u p : Str) (es : List Event) : ∀ s : Session, s.ended = true →
    transmitted u p s es = [] := by
  induction es with
  | nil => intro s _; rfl
  | cons e es ih =>
    intro s h
    unfold transmitted
    rw [ih _ (step_ended u p s e h)]
    simp [h]

theorem resolve_outcome_ne_none (c : Option Str) (s : Session) :
    (resolve c s).outcome ≠ none := by
  unfold resolve
  cases h : s.outcome <;> simp [h]

theorem reject_outcome_ne_none (m : Str) (s : Session) : (reject m s).outcome ≠ none := by
  unfold reject
  cases h : s.outcome <;> simp [h]

theorem onLine_settled_ended (u p : Str) (s : Session) (l : Str)
    (h : s.outcome ≠ none → s.ended = true) :
    (onLine u p s l).1.outcome ≠ none → (onLine u p s l).1.ended = true := by
  unfold onLine
  split_ifs <;>
    simp [send, resolve_ended, reject_ended, socketEnd, recordExists_ended, recordExists_outcome] <;>
    exact h

theorem ended_of_settled_run (u p : Str) (chunks : List Str) :
    (run u p initial (chunks.map Event.data)).outcome ≠ none →
    (run u p initial (chunks.map Event.data)).ended = true := by
  have hlines : ∀ (ls : List Str) (s : Session), (s.outcome ≠ none → s.ended = true) →
      ((processLines u p s ls).outcome ≠ none → (processLines u p s ls).ended = true) := by
    intro ls
    induction ls with
    | nil => intro s h; exact h
    | cons l ls ih =>
      intro s h
      unfold processLines
      split
      · exact onLine_settled_ended u p s l h
      · exact ih _ (onLine_settled_ended u p s l h)
  have hrun : ∀ (cs : List Str) (s : Session), (s.outcome ≠ none → s.ended = true) →
      ((run u p s (cs.map Event.data)).outcome ≠ none →
        (run u p s (cs.map Event.data)).ended = true) := by
    intro cs
    induction cs with
    | nil => intro s h; exact h
    | cons c cs ih =>
      intro s h
      exact ih _ (hlines _ _ h)
  exact hrun chunks initial (fun h => absurd rfl h)

/-! ## Properties -/

/-- C1 (as amended): `extractCode t` is the leftmost run of exactly six decimal
digits of `t` whose preceding character (if any) is not a word character
(letter, digit or underscore) and whose following character (if any) is not a
word character; it is `none` exactly when `t` has no such run. -/
theorem extractCode_first_word_bounded (t : Str) :
    (∀ code, extractCode t = some code ↔ IsFirstCode isWordChar t code) ∧
      (extractCode t = none ↔ ¬ ∃ pre code post, IsCodeAt isWordChar t pre code post) := by
  rw [extractCode_eq_searchCode]
  have hnone : searchCode none t = none ↔
      ¬ ∃ pre code post, IsCodeAt isWordChar t pre code post := by
    constructor
    · rintro h ⟨pre, code, post, hc⟩
      exact searchCode_none t none h pre code post ((runAt_none_iff t pre code post).2 hc)
    · intro h
      cases hs : searchCode none t with
      | none => rfl
      | some d =>
        obtain ⟨mid, post, hr, _⟩ := searchCode_some t none d hs
        exact absurd ⟨mid, d, post, (runAt_none_iff t mid d post).1 hr⟩ h
  refine ⟨?_, hnone⟩
  intro code
  constructor
  · intro h
    obtain ⟨mid, post, hr, hmin⟩ := searchCode_some t none code h
    refine ⟨mid, post, (runAt_none_iff t mid code post).1 hr, ?_⟩
    intro pre2 code2 post2 h2
    exact hmin pre2 code2 post2 ((runAt_none_iff t pre2 code2 post2).2 h2)
  · rintro ⟨pre, post, hc, hmin⟩
    cases hs : searchCode none t with
    | none => exact absurd ⟨pre, code, post, hc⟩ (hnone.1 hs)
    | some d =>
      obtain ⟨mid, post1, hr, hmin1⟩ := searchCode_some t none d hs
      have hd := (runAt_none_iff t mid d post1).1 hr
      have hle1 := hmin mid d post1 hd
      have hle2 := hmin1 pre code post ((runAt_none_iff t pre code post).2 hc)
      rw [isCodeAt_unique hd hc (Nat.le_antisymm hle2 hle1)]

/-- C1 (as stated) fails: in `abc123456` the run `123456` is preceded by a
letter, hence by a non-digit, and ends the text, and in `code_845213` the run
`845213` is preceded by an underscore; the claim makes each the result, yet
`extractCode` returns `null` on both texts. -/
theorem extractCode_digit_bounded_counterexample :
    extractCode "abc123456".toList = none ∧
      IsCodeAt isDigit "abc123456".toList "abc".toList "123456".toList [] ∧
      extractCode "code_845213".toList = none ∧
      IsCodeAt isDigit "code_845213".toList "code_".toList "845213".toList [] := by
  refine ⟨by decide, ⟨by decide, by decide, by decide, by decide, by simp⟩, by decide,
    ⟨by decide, by decide, by decide, by decide, by simp⟩⟩

/-- C2: chunking invariance of the line framer.  Whatever way a text `s` is cut
into chunks (empty chunks and a cut between a carriage return and its line feed
included), the framing step run over the chunks from an empty buffer gives the
same complete lines and the same leftover: the pieces of `split(s)` without the
last one, and the last one. -/
theorem feedChunks_chunking_invariant (s : Str) (cs1 cs2 : List Str)
    (h1 : cs1.flatten = s) (h2 : cs2.flatten = s) :
    feedChunks [] [] cs1 = feedChunks [] [] cs2 ∧
      (feedChunks [] [] cs1).1 = (splitLines [] s).dropLast ∧
      (feedChunks [] [] cs1).2 = (splitLines [] s).getLast?.getD [] := by
  have key : ∀ cs : List Str, feedChunks [] [] cs = frame [] cs.flatten := by
    intro cs
    have := feedChunks_eq_frame cs []
    simpa [frame, splitLines] using this
  rw [key cs1, key cs2, h1, h2]
  exact ⟨rfl, rfl, rfl⟩

/-- C2 at work on `a\r\nb\nc`, cut once between the carriage return and the
line feed and once with an empty chunk. -/
theorem feedChunks_chunking_invariant_witness :
    feedChunks [] [] ["a\r".toList, "\nb\n".toList, "c".toList]
        = feedChunks [] [] ["a".toList, [], "\r\nb".toList, "\nc".toList] ∧
      (feedChunks [] [] ["a\r".toList, "\nb\n".toList, "c".toList]).1
        = (splitLines [] "a\r\nb\nc".toList).dropLast ∧
      (feedChunks [] [] ["a\r".toList, "\nb\n".toList, "c".toList]).2
        = (splitLines [] "a\r\nb\nc".toList).getLast?.getD [] :=
  feedChunks_chunking_invariant "a\r\nb\nc".toList ["a\r".toList, "\nb\n".toList, "c".toList]
    ["a".toList, [], "\r\nb".toList, "\nc".toList] (by decide) (by decide)

/-- C3 fails on the code: a failure line whose text holds the letters `ok` is
taken as a success.  After the greeting, `A1 NO invalid token` makes the
session write `A2 SELECT INBOX` and go to stage 2 with the promise unsettled and
the socket open; `A2 NO no such book` in stage 2 makes it write the fetch
command; `A3 BAD unknown token` in stage 3 resolves the promise. -/
theorem failure_line_with_ok_letters_succeeds :
    (run "user".toList "pass".toList initial
        [Event.data "* OK ready\r\n".toList, Event.data "A1 NO invalid token\r\n".toList])
      = { buffer := [], stage := 2, existsCount := none, messageData := [],
          written := ["A1 LOGIN user pass\r\n".toList, "A2 SELECT INBOX\r\n".toList],
          ended := false, outcome := none } ∧
    (run "user".toList "pass".toList initial
        [Event.data "* OK ready\r\nA1 OK\r\n".toList,
         Event.data "A2 NO no such book\r\n".toList])
      = { buffer := [], stage := 3, existsCount := none, messageData := [],
          written := ["A1 LOGIN user pass\r\n".toList, "A2 SELECT INBOX\r\n".toList,
            "A3 FETCH 1 BODY[]\r\n".toList],
          ended := false, outcome := none } ∧
    (run "user".toList "pass".toList initial
        [Event.data "* OK ready\r\nA1 OK\r\nA2 OK\r\n".toList,
         Event.data "A3 BAD unknown token\r\n".toList]).outcome
      = some (Outcome.resolved none) := by
  refine ⟨by decide, by decide, by decide⟩

/-- C4: in stage 2, with no count recorded on entry, after lines none of which
starts with `A2` the variable `existsCount` is the number of the most recent
line of the form `* <digits> EXISTS` (in any case of the letters), or unknown
when there is no such line; a line that starts with `A2` and passes the test for
OK then makes the session write exactly `A3 FETCH <n> BODY[]` and a CRLF, where
`n` is that number when it is known and positive and 1 otherwise, and go to
stage 3; `n` is at least 1.  The count is taken below `2 ^ 53`, where the number
type of the source is exact. -/
theorem select_success_fetches_last_exists (u p : Str) (s : Session) (ls : List Str) (l : Str)
    (o : Option Nat)
    (hs : s.stage = 2) (he : s.existsCount = none)
    (hls : ∀ x ∈ ls, startsWith "A2".toList x = false)
    (hl : startsWith "A2".toList l = true) (hok : testOK l = true)
    (hlast : IsLastExists ls o)
    (_hsafe : ∀ k, o = some k → k < 2 ^ 53) :
    (processLines u p s ls).existsCount = o ∧
      (processLines u p s ls).stage = 2 ∧
      (processLines u p s (ls ++ [l])).written
        = s.written
          ++ ["A3 FETCH ".toList ++ Nat.toDigits 10 (targetSeq o) ++ " BODY[]\r\n".toList] ∧
      (processLines u p s (ls ++ [l])).stage = 3 ∧
      1 ≤ targetSeq o := by
  have hlo := lastExists_of_isLastExists hlast
  have h1 := processLines_stage2 u p ls s [] hs hls
  have h2 := processLines_stage2 u p ls s [l] hs hls
  rw [List.append_nil, processLines_nil] at h1
  rw [he, Option.or_none, hlo] at h1 h2
  have hs2 : ({ s with existsCount := o } : Session).stage = 2 := hs
  have h3 := onLine_stage2_ok (u := u) (p := p) hs2 hl hok
  have hstop : (onLine u p { s with existsCount := o } l).2 = false := by rw [h3]
  rw [processLines_cons_continue hstop, processLines_nil, h3, recordExists_of_tag _ hl] at h2
  refine ⟨by rw [h1], by rw [h1]; exact hs, ?_, by rw [h2], ?_⟩
  · rw [h2]
    simp [send, fetchCmd, numToString, seqOf_eq_targetSeq]
  · rw [← seqOf_eq_targetSeq]
    exact one_le_seqOf o

/-- C4 at work on the scenario of the specification: `* 42 EXISTS`, then another
untagged line, then the tagged success; the session writes `A3 FETCH 42 BODY[]`. -/
theorem select_success_fetches_last_exists_witness :
    (processLines "u".toList "p".toList { initial with stage := 2 }
        ["* 42 EXISTS".toList, "* 1 RECENT".toList]).existsCount = some 42 ∧
      (processLines "u".toList "p".toList { initial with stage := 2 }
        ["* 42 EXISTS".toList, "* 1 RECENT".toList]).stage = 2 ∧
      (processLines "u".toList "p".toList { initial with stage := 2 }
          (["* 42 EXISTS".toList, "* 1 RECENT".toList]
            ++ ["A2 OK [READ-WRITE] SELECT completed".toList])).written
        = ["A3 FETCH 42 BODY[]\r\n".toList] ∧
      (processLines "u".toList "p".toList { initial with stage := 2 }
          (["* 42 EXISTS".toList, "* 1 RECENT".toList]
            ++ ["A2 OK [READ-WRITE] SELECT completed".toList])).stage = 3 ∧
      1 ≤ 42 :=
  select_success_fetches_last_exists "u".toList "p".toList { initial with stage := 2 }
    ["* 42 EXISTS".toList, "* 1 RECENT".toList] "A2 OK [READ-WRITE] SELECT completed".toList
    (some 42) (by decide) (by decide) (by decide) (by decide) (by decide)
    ⟨[], "* 42 EXISTS".toList, ["* 1 RECENT".toList], rfl,
      ⟨" ".toList, "42".toList, " ".toList, "EXISTS".toList, [], by decide, by decide, by decide,
        by decide, by decide, by decide, by decide, by decide, by decide⟩,
      fun x hx j => not_isExistsLine_of_none (by
        simp only [List.mem_singleton] at hx
        rw [hx]
        decide) j⟩
    (by decide)

/-- C5: in stage 3 with the promise unsettled, lines none of which starts with
`A3` are appended to `messageData` each followed by one line feed, in order;
a line that starts with `A3` and passes the test for OK then resolves the
promise with `extractCode` of that text (`null` when nothing is found). -/
theorem fetch_accumulates_then_resolves (u p : Str) (s : Session) (ls : List Str) (l : Str)
    (hs : s.stage = 3) (hm : s.messageData = []) (ho : s.outcome = none)
    (hls : ∀ x ∈ ls, startsWith "A3".toList x = false)
    (hl : startsWith "A3".toList l = true) (hok : testOK l = true) :
    (processLines u p s ls).messageData = joinLines ls ∧
      (processLines u p s (ls ++ [l])).outcome
        = some (Outcome.resolved (extractCode (joinLines ls))) := by
  have h1 := processLines_stage3 u p ls s [] hs hls
  have h2 := processLines_stage3 u p ls s [l] hs hls
  rw [List.append_nil, processLines_nil] at h1
  rw [hm, List.nil_append] at h1 h2
  have hs2 : ({ s with messageData := joinLines ls } : Session).stage = 3 := hs
  have h3 := onLine_stage3_ok (u := u) (p := p) hs2 hl hok
  have hstop : (onLine u p { s with messageData := joinLines ls } l).2 = true := by rw [h3]
  rw [processLines_cons_stop hstop, h3] at h2
  refine ⟨by rw [h1], ?_⟩
  rw [h2]
  simp [resolve, socketEnd, ho]

/-- C5 at work on the scenario of the specification. -/
theorem fetch_accumulates_then_resolves_witness :
    (processLines "u".toList "p".toList { initial with stage := 3 }
        ["* 1 FETCH (BODY[] {40}".toList, "Your code is 845213 today".toList,
          ")".toList]).messageData
        = joinLines ["* 1 FETCH (BODY[] {40}".toList, "Your code is 845213 today".toList,
            ")".toList] ∧
      (processLines "u".toList "p".toList { initial with stage := 3 }
        (["* 1 FETCH (BODY[] {40}".toList, "Your code is 845213 today".toList, ")".toList]
          ++ ["A3 OK FETCH completed".toList])).outcome
        = some (Outcome.resolved (extractCode
            (joinLines ["* 1 FETCH (BODY[] {40}".toList, "Your code is 845213 today".toList,
              ")".toList]))) :=
  fetch_accumulates_then_resolves "u".toList "p".toList { initial with stage := 3 }
    ["* 1 FETCH (BODY[] {40}".toList, "Your code is 845213 today".toList, ")".toList]
    "A3 OK FETCH completed".toList (by decide) (by decide) (by decide) (by decide) (by decide)
    (by decide)

/-- C6: in stage 0 a line that begins with `*` makes the session write exactly
`A1 LOGIN <user> <pass>` and a CRLF and go to stage 1, and nothing else changes;
any other line leaves the session as it is and writes nothing. -/
theorem greeting_transition (u p : Str) (s : Session) (line : Str) (hs : s.stage = 0) :
    onLine u p s line =
      if startsWith "*".toList line = true then
        ({ s with
            written := s.written ++ ["A1 LOGIN ".toList ++ u ++ " ".toList ++ p
              ++ "\r\n".toList],
            stage := 1 }, false)
      else
        (s, false) := by
  by_cases h : startsWith "*".toList line = true
  · rw [if_pos h, onLine_stage0_star hs h]
    simp [send, loginCmd]
  · rw [if_neg h, onLine_stage0_other hs (by simpa using h)]

/-- C6 at work on the greeting of the specification. -/
theorem greeting_transition_witness :
    onLine "user".toList "pass".toList initial "* OK server ready".toList =
      if startsWith "*".toList "* OK server ready".toList = true then
        ({ initial with
            written := initial.written ++ ["A1 LOGIN ".toList ++ "user".toList ++ " ".toList
              ++ "pass".toList ++ "\r\n".toList],
            stage := 1 }, false)
      else
        (initial, false) :=
  greeting_transition "user".toList "pass".toList initial "* OK server ready".toList
    (by decide)

/-- C7: whatever the casing of the status word (`OK`, `ok`, `Ok`, `oK`) and
whatever the text after it, the line `A1 <ok> <text>` in stage 1 makes the
session write exactly `A2 SELECT INBOX` and a CRLF and go to stage 2; the line
`A2 <ok> <text>` in stage 2 makes it write the fetch command and go to stage 3;
the line `A3 <ok> <text>` in stage 3 ends the socket and resolves the unsettled
promise with `extractCode(messageData)`. -/
theorem success_word_any_case (u p : Str) (s1 s2 s3 : Session) (ok text : Str)
    (hok : ok ∈ ["OK".toList, "ok".toList, "Ok".toList, "oK".toList])
    (h1 : s1.stage = 1) (h2 : s2.stage = 2) (h3 : s3.stage = 3) (ho : s3.outcome = none) :
    onLine u p s1 ("A1 ".toList ++ ok ++ " ".toList ++ text)
        = ({ s1 with written := s1.written ++ ["A2 SELECT INBOX\r\n".toList], stage := 2 },
            false) ∧
      onLine u p s2 ("A2 ".toList ++ ok ++ " ".toList ++ text)
        = ({ s2 with
              written := s2.written ++ [fetchCmd (seqOf s2.existsCount) ++ "\r\n".toList],
              stage := 3 }, false) ∧
      onLine u p s3 ("A3 ".toList ++ ok ++ " ".toList ++ text)
        = ({ s3 with ended := true,
                     outcome := some (Outcome.resolved (extractCode s3.messageData)) },
            true) := by
  have hcases : ok = "OK".toList ∨ ok = "ok".toList ∨ ok = "Ok".toList ∨ ok = "oK".toList := by
    simpa using hok
  have hok1 : ∀ tag : Char, testOK (['A', tag, ' '] ++ ok ++ " ".toList ++ text) = true := by
    intro tag
    rcases hcases with h | h | h | h <;> subst h <;> simp [testOK]
  refine ⟨?_, ?_, ?_⟩
  · have hl : startsWith "A1".toList ("A1 ".toList ++ ok ++ " ".toList ++ text) = true := rfl
    rw [onLine_stage1_ok h1 hl (hok1 '1')]
    simp [send, selectCmd]
  · have hl : startsWith "A2".toList ("A2 ".toList ++ ok ++ " ".toList ++ text) = true := rfl
    rw [onLine_stage2_ok h2 hl (hok1 '2'), recordExists_of_tag s2 hl]
    simp [send]
  · have hl : startsWith "A3".toList ("A3 ".toList ++ ok ++ " ".toList ++ text) = true := rfl
    rw [onLine_stage3_ok h3 hl (hok1 '3')]
    simp [resolve, socketEnd, ho]

/-- C7 at work with the status word `oK`. -/
theorem success_word_any_case_witness :
    onLine "u".toList "p".toList { initial with stage := 1 }
        ("A1 ".toList ++ "oK".toList ++ " ".toList ++ "done".toList)
        = ({ ({ initial with stage := 1 } : Session) with
              written := ({ initial with stage := 1 } : Session).written
                ++ ["A2 SELECT INBOX\r\n".toList],
              stage := 2 }, false) ∧
      onLine "u".toList "p".toList { initial with stage := 2, existsCount := some 42 }
        ("A2 ".toList ++ "oK".toList ++ " ".toList ++ "done".toList)
        = ({ ({ initial with stage := 2, existsCount := some 42 } : Session) with
              written := ({ initial with stage := 2, existsCount := some 42 } : Session).written
                ++ [fetchCmd (seqOf
                  ({ initial with stage := 2, existsCount := some 42 } : Session).existsCount)
                  ++ "\r\n".toList],
              stage := 3 }, false) ∧
      onLine "u".toList "p".toList
          { initial with stage := 3, messageData := "code 845213\n".toList }
        ("A3 ".toList ++ "oK".toList ++ " ".toList ++ "done".toList)
        = ({ ({ initial with stage := 3, messageData := "code 845213\n".toList } : Session) with
              ended := true,
              outcome := some (Outcome.resolved (extractCode
                ({ initial with stage := 3, messageData := "code 845213\n".toList }
                  : Session).messageData)) },
            true) :=
  success_word_any_case "u".toList "p".toList { initial with stage := 1 }
    { initial with stage := 2, existsCount := some 42 }
    { initial with stage := 3, messageData := "code 845213\n".toList }
    "oK".toList "done".toList (by decide) (by decide) (by decide) (by decide) (by decide)

/-- C8 fails on the code: the handler of `end` resolves only when `stage < 3`.
A session that has sent the fetch command and has not yet read the line tagged
`A3` stays unsettled when the stream ends, while the same event in stage 2
resolves with `null`. -/
theorem end_in_stage3_leaves_unsettled :
    (run "user".toList "pass".toList initial
        [Event.data "* OK ready\r\nA1 OK\r\n* 1 EXISTS\r\nA2 OK\r\n".toList,
         Event.data "* 1 FETCH (BODY[] {12}\r\n".toList]).stage = 3 ∧
    (run "user".toList "pass".toList initial
        [Event.data "* OK ready\r\nA1 OK\r\n* 1 EXISTS\r\nA2 OK\r\n".toList,
         Event.data "* 1 FETCH (BODY[] {12}\r\n".toList, Event.finish]).outcome = none ∧
    (run "user".toList "pass".toList initial
        [Event.data "* OK ready\r\nA1 OK\r\n* 1 EXISTS\r\n".toList, Event.finish]).outcome
      = some (Outcome.resolved none) := by
  refine ⟨by decide, by decide, by decide⟩

/-- C9 fails on the code: an invocation can end without any terminal outcome.
When the stream ends in stage 3 before the line tagged `A3`, the promise stays
unsettled, so that invocation has no outcome at all instead of exactly one.
The other parts of the claim hold: an outcome, once there, is never replaced;
after an outcome produced by the `data` handler the socket has been ended and
nothing more is sent, as for the line `A1 OK` that arrives after the rejection
of `A1 NO LOGIN failed`. -/
theorem invocation_without_outcome :
    (run "user".toList "pass".toList initial
        [Event.data openingChunk, Event.data "Your code is 845213\r\n".toList,
         Event.finish]).outcome = none ∧
    (∀ (u p : Str) (s : Session) (es : List Event) (o : Outcome),
      s.outcome = some o → (run u p s es).outcome = some o) ∧
    (∀ (u p : Str) (chunks : List Str) (es : List Event),
      (run u p initial (chunks.map Event.data)).outcome ≠ none →
      transmitted u p (run u p initial (chunks.map Event.data)) es = []) ∧
    (run "user".toList "pass".toList initial
        [Event.data "* OK ready\r\n".toList,
         Event.data "A1 NO LOGIN failed\r\n".toList]).outcome
      = some (Outcome.rejected "IMAP login failed".toList) ∧
    transmitted "user".toList "pass".toList
        (run "user".toList "pass".toList initial
          [Event.data "* OK ready\r\n".toList, Event.data "A1 NO LOGIN failed\r\n".toList])
        [Event.data "A1 OK\r\n".toList] = [] := by
  refine ⟨by decide, fun u p s es o h => outcome_run u p es s h, ?_, by decide, by decide⟩
  intro u p chunks es h
  exact transmitted_of_ended u p es _ (ended_of_settled_run u p chunks h)

/-- C10: after every sequence of events from the start, the stage is at most 3,
it equals the number of commands written, and the commands written are a prefix
of `A1 LOGIN ...`, `A2 SELECT INBOX`, `A3 FETCH <n> BODY[]` for some `n ≥ 1`;
the stage never decreases; and one line either writes nothing and keeps the
stage, or writes the one next command and raises the stage by one: the login in
stage 0 on a line starting with `*`, the select in stage 1 on a line starting
with `A1` that passes the test for OK, the fetch in stage 2 on a line starting
with `A2` that passes it. -/
theorem commands_strictly_sequential (u p : Str) :
    (∀ es : List Event,
        (run u p initial es).stage ≤ 3 ∧
        (run u p initial es).written.length = (run u p initial es).stage ∧
        ∃ n, 1 ≤ n ∧
          (run u p initial es).written <+:
            [loginCmd u p ++ "\r\n".toList, selectCmd ++ "\r\n".toList,
              fetchCmd n ++ "\r\n".toList]) ∧
      (∀ (s : Session) (es : List Event), s.stage ≤ (run u p s es).stage) ∧
      (∀ (s : Session) (l : Str),
        ((onLine u p s l).1.written = s.written ∧ (onLine u p s l).1.stage = s.stage) ∨
        (s.stage = 0 ∧ startsWith "*".toList l = true ∧
          (onLine u p s l).1.written = s.written ++ [loginCmd u p ++ "\r\n".toList] ∧
          (onLine u p s l).1.stage = 1) ∨
        (s.stage = 1 ∧ startsWith "A1".toList l = true ∧ testOK l = true ∧
          (onLine u p s l).1.written = s.written ++ [selectCmd ++ "\r\n".toList] ∧
          (onLine u p s l).1.stage = 2) ∨
        (s.stage = 2 ∧ startsWith "A2".toList l = true ∧ testOK l = true ∧
          ∃ n, 1 ≤ n ∧
            (onLine u p s l).1.written = s.written ++ [fetchCmd n ++ "\r\n".toList] ∧
            (onLine u p s l).1.stage = 3)) := by
  refine ⟨?_, fun s es => stage_le_run u p es s, onLine_written_stage u p⟩
  intro es
  obtain ⟨h3, n, hn, hw⟩ := seqInv_run u p es initial (seqInv_initial u p)
  refine ⟨h3, ?_, n, hn, ?_⟩
  · rw [hw, List.length_take]
    simp only [List.length_cons, List.length_nil]
    omega
  · rw [hw]
    exact List.take_prefix _ _

/-- C11: the framing step neither loses nor duplicates a character.  For every
leftover `b` and chunk `c`, no complete line and not the new leftover holds a
line feed, and `b ++ c` is the complete lines in order, each followed by a
terminator that is a line feed or a carriage return and a line feed, followed
by the new leftover. -/
theorem frame_lossless (b c : Str) :
    (∀ l ∈ (frame b c).1, '\n' ∉ l) ∧ '\n' ∉ (frame b c).2 ∧
      ∃ ts : List Str, ts.length = (frame b c).1.length ∧
        (∀ t ∈ ts, t = "\n".toList ∨ t = "\r\n".toList) ∧
        b ++ c = rebuild (frame b c).1 ts (frame b c).2 := by
  obtain ⟨ls, r, ts, h1, h2, h3, h4, h5, h6⟩ := splitStrip_spec (b ++ c) [] (by simp)
  have hf1 : (frame b c).1 = ls := by
    rw [frame_fst, splitLines_nil_eq, h1]
    simp
  have hf2 : (frame b c).2 = r := by
    rw [frame_snd, splitLines_nil_eq, h1]
    simp
  rw [hf1, hf2]
  exact ⟨h5, h6, ts, h2, h3, by simpa using h4⟩

/-- C12 (as stated) fails: on `a\rb\n` the framing step gives the one complete
line `a\rb`, which holds a carriage return, and not the two lines `a` and `b`;
on `a\rb` it gives no line at all. -/
theorem lone_carriage_return_counterexample :
    frame [] "a\rb\n".toList = (["a\rb".toList], []) ∧
      frame [] "a\rb\n".toList ≠ (["a".toList, "b".toList], []) ∧
      '\r' ∈ "a\rb".toList ∧
      frame [] "a\rb".toList = ([], "a\rb".toList) := by
  refine ⟨by decide, by decide, by decide, by decide⟩

/-- C12 (as amended): the framing step splits at a line feed optionally
preceded by one carriage return, and at nothing else.  Its result is the one
pair of lines and leftover such that the input is the lines, each followed by a
terminator, then the leftover, where no line and not the leftover holds a line
feed and a terminator is a carriage return with a line feed, or a line feed
alone after a line that does not end in a carriage return.  So the carriage
return in front of a line feed goes with it, every other carriage return stays
in its line or in the leftover, the number of complete lines is the number of
line feeds, and a text without a line feed stays whole in the leftover. -/
theorem frame_splits_at_line_feeds (b c : Str) :
    (∀ (lines : List Str) (r : Str),
        IsFraming (b ++ c) lines r ↔ frame b c = (lines, r)) ∧
      (frame b c).1.length = (b ++ c).count '\n' ∧
      (∀ l ∈ (frame b c).1, '\n' ∉ l) ∧ '\n' ∉ (frame b c).2 ∧
      ('\n' ∉ b ++ c → frame b c = ([], b ++ c)) := by
  obtain ⟨ls, r, ts, h1, _, _, _, h5, h6⟩ := splitStrip_spec (b ++ c) [] (by simp)
  have hlen := splitStrip_length (b ++ c) []
  have hf1 : (frame b c).1 = ls := by
    rw [frame_fst, splitLines_nil_eq, h1]
    simp
  have hf2 : (frame b c).2 = r := by
    rw [frame_snd, splitLines_nil_eq, h1]
    simp
  rw [h1] at hlen
  refine ⟨fun lines x => frame_eq_iff_isFraming b c lines x, ?_, ?_, ?_, ?_⟩
  · rw [hf1]
    simp only [List.length_append, List.length_singleton] at hlen
    omega
  · rw [hf1]; exact h5
  · rw [hf2]; exact h6
  · intro hno
    apply (frame_eq_iff_isFraming b c [] (b ++ c)).1
    exact ⟨[], List.Forall₂.nil, hno, by simp [rebuild]⟩

/-- C13: soundness of extraction.  A result `c` of `extractCode t` is exactly
six decimal digits, it stands in `t` as `pre ++ c ++ post` at the leftmost
matched place, and there it is neither preceded nor followed by a digit; so a
text without a run of exactly six digits between non-digits yields `null`, as
does the empty text. -/
theorem extractCode_sound (t : Str) :
    (∀ c, extractCode t = some c →
        c.length = 6 ∧ (∀ x ∈ c, isDigit x = true) ∧
        ∃ pre post, IsCodeAt isDigit t pre c post ∧ IsCodeAt isWordChar t pre c post ∧
          ∀ pre2 code2 post2, IsCodeAt isWordChar t pre2 code2 post2 →
            pre.length ≤ pre2.length) ∧
      ((∀ pre c post, ¬ IsCodeAt isDigit t pre c post) → extractCode t = none) ∧
      extractCode [] = none := by
  have key : ∀ c, extractCode t = some c →
      c.length = 6 ∧ (∀ x ∈ c, isDigit x = true) ∧
        ∃ pre post, IsCodeAt isDigit t pre c post ∧ IsCodeAt isWordChar t pre c post ∧
          ∀ pre2 code2 post2, IsCodeAt isWordChar t pre2 code2 post2 →
            pre.length ≤ pre2.length := by
    intro c h
    obtain ⟨pre, post, hc, hmin⟩ := extractCode_some_first h
    exact ⟨hc.2.1, hc.2.2.1, pre, post, isCodeAt_digit_of_word hc, hc, hmin⟩
  refine ⟨key, ?_, extractCode_nil⟩
  intro hno
  cases h : extractCode t with
  | none => rfl
  | some c =>
    obtain ⟨_, _, pre, post, hd, _⟩ := key c h
    exact absurd hd (hno pre c post)

/-- C15: extraction is idempotent.  Applied to its own result it returns that
result: when `extractCode t` is a code `c` then `extractCode c` is `c`, and
when it is `null` there is nothing to apply it to. -/
theorem extractCode_idempotent (t : Str) :
    (extractCode t).bind extractCode = extractCode t ∧
      ∀ c, extractCode t = some c → extractCode c = some c := by
  have key : ∀ c, extractCode t = some c → extractCode c = some c := by
    intro c h
    obtain ⟨pre, post, hc, _⟩ := extractCode_some_first h
    exact extractCode_of_six_digits hc.2.1 hc.2.2.1
  refine ⟨?_, key⟩
  cases h : extractCode t with
  | none => rfl
  | some c => exact key c h

/-- C14 (as stated) fails: a transport error after the greeting rejects the
promise with that error instead of resolving it with `null`. -/
theorem transport_error_counterexample :
    (run "user".toList "pass".toList initial
        [Event.data "* OK ready\r\n".toList, Event.error "read ECONNRESET".toList]).outcome
      = some (Outcome.rejected "read ECONNRESET".toList) ∧
    (run "user".toList "pass".toList initial
        [Event.data "* OK ready\r\n".toList, Event.error "read ECONNRESET".toList]).outcome
      ≠ some (Outcome.resolved none) := by
  refine ⟨by decide, by decide⟩

/-- C14 (as amended): for every session whose promise has not settled, in any
stage, a transport error rejects the promise with that very error and changes
nothing else; whatever events follow, the invocation stays rejected with it and
never resolves with `null`. -/
theorem transport_error_rejects (u p : Str) (s : Session) (message : Str) (es : List Event)
    (h : s.outcome = none) :
    step u p s (Event.error message)
        = { s with outcome := some (Outcome.rejected message) } ∧
      (run u p s (Event.error message :: es)).outcome
        = some (Outcome.rejected message) := by
  have h1 : step u p s (Event.error message)
      = { s with outcome := some (Outcome.rejected message) } := by
    simp [step, onError, reject, h]
  refine ⟨h1, ?_⟩
  show (run u p (step u p s (Event.error message)) es).outcome = _
  rw [h1]
  exact outcome_run u p es _ rfl

/-- C14 (as amended) at work in the initial session, the end of the stream
following the error. -/
theorem transport_error_rejects_witness :
    step "u".toList "p".toList initial (Event.error "read ECONNRESET".toList)
        = { initial with outcome := some (Outcome.rejected "read ECONNRESET".toList) } ∧
      (run "u".toList "p".toList initial
          (Event.error "read ECONNRESET".toList :: [Event.finish])).outcome
        = some (Outcome.rejected "read ECONNRESET".toList) :=
  transport_error_rejects "u".toList "p".toList initial "read ECONNRESET".toList
    [Event.finish] (by decide)

/-- C16 (as stated) fails: a POST whose body is not valid JSON, or is the JSON
value `null`, gets 500 from the `catch` block although `fetchLatestCode` was
never invoked, not 401 for its missing secret. -/
theorem handler_invalid_body_counterexample :
    (handler none
        { httpMethod := "POST".toList,
          body := ParsedBody.invalid "Unexpected token o in JSON at position 1".toList }
        (Outcome.resolved (some "845213".toList))).statusCode = 500 ∧
    (handler none
        { httpMethod := "POST".toList,
          body := ParsedBody.null "Cannot read properties of null".toList }
        (Outcome.resolved none)).statusCode = 500 := by
  refine ⟨by decide, by decide⟩

/-- C16 (as amended): the handler returns 405 when the method is not POST,
whatever the body; for a POST it returns 500 when the body does not parse or is
`null`, 401 when the secret of the body is not the expected secret, whatever
`fetchLatestCode` would do; and with the expected secret 200 with the code when
the promise resolves with a code, 404 when it resolves with `null`, 500 when it
rejects.  The status is always one of these five. -/
theorem handler_status_mapping (env : Option Str) (event : HttpEvent) (fetched : Outcome) :
    (event.httpMethod ≠ "POST".toList →
        handler env event fetched
          = { statusCode := 405, body := ResponseBody.error "Method not allowed".toList }) ∧
      (event.httpMethod = "POST".toList → ∀ m,
        event.body = ParsedBody.invalid m ∨ event.body = ParsedBody.null m →
        handler env event fetched = errorResponse m) ∧
      (event.httpMethod = "POST".toList → ∀ f, event.body = ParsedBody.object f →
        f ≠ SecretField.text (expectedSecret env) →
        handler env event fetched
          = { statusCode := 401, body := ResponseBody.error "Unauthorized".toList }) ∧
      (event.httpMethod = "POST".toList →
        event.body = ParsedBody.object (SecretField.text (expectedSecret env)) →
        (∀ c, c ≠ [] → fetched = Outcome.resolved (some c) →
          handler env event fetched = { statusCode := 200, body := ResponseBody.code c }) ∧
        (fetched = Outcome.resolved none →
          (handler env event fetched).statusCode = 404) ∧
        (∀ m, fetched = Outcome.rejected m →
          (handler env event fetched).statusCode = 500)) ∧
      (handler env event fetched).statusCode ∈ [405, 401, 200, 404, 500] := by
  refine ⟨fun h => handler_not_post h, fun h m hb => handler_throws h hb, ?_, ?_, ?_⟩
  · intro h f hb hf
    have hr : secretRejected (expectedSecret env) f = true := by
      cases hx : secretRejected (expectedSecret env) f with
      | true => rfl
      | false => exact absurd ((secretRejected_eq_false_iff env f).1 hx) hf
    exact handler_unauthorized h hb hr
  · intro h hb
    refine ⟨?_, ?_, ?_⟩
    · intro c hc hf
      rw [handler_authorized fetched h hb, hf]
      simp only [hc, if_false]
    · intro hf
      rw [handler_authorized fetched h hb, hf]
    · intro m hf
      rw [handler_authorized fetched h hb, hf]
      rfl
  · by_cases h : event.httpMethod = "POST".toList
    · cases hb : event.body with
      | invalid m =>
        rw [handler_throws h (Or.inl hb), errorResponse_status]
        decide
      | null m =>
        rw [handler_throws h (Or.inr hb), errorResponse_status]
        decide
      | object f =>
        cases hr : secretRejected (expectedSecret env) f with
        | true =>
          rw [handler_unauthorized h hb hr]
          decide
        | false =>
          rw [(secretRejected_eq_false_iff env f).1 hr] at hb
          rw [handler_authorized fetched h hb]
          cases fetched with
          | rejected m =>
            show (errorResponse m).statusCode ∈ [405, 401, 200, 404, 500]
            rw [errorResponse_status]
            decide
          | resolved code =>
            cases code with
            | none => decide
            | some c =>
              by_cases hc : c = []
              · simp only [hc, if_true]
                decide
              · simp only [hc, if_false]
                decide
    · rw [handler_not_post h]
      decide

/-- C17 (as stated) fails: two rejections that differ only in the address inside
the message of the error give different 500 bodies, each holding the raw
message. -/
theorem error_body_leaks_message_counterexample :
    handler none authorizedEvent (Outcome.rejected "connect ECONNREFUSED 10.0.0.1:993".toList)
      = { statusCode := 500,
          body := ResponseBody.error "connect ECONNREFUSED 10.0.0.1:993".toList } ∧
    handler none authorizedEvent (Outcome.rejected "connect ECONNREFUSED 10.0.0.2:993".toList)
      = { statusCode := 500,
          body := ResponseBody.error "connect ECONNREFUSED 10.0.0.2:993".toList } ∧
    (handler none authorizedEvent
        (Outcome.rejected "connect ECONNREFUSED 10.0.0.1:993".toList)).body
      ≠ (handler none authorizedEvent
        (Outcome.rejected "connect ECONNREFUSED 10.0.0.2:993".toList)).body := by
  refine ⟨by decide, by decide, by decide⟩

/-- C17 (as amended): when `fetchLatestCode` rejects for an authorized POST, the
500 body carries the message of the error as it is (`Unknown error` stands in
for an empty message only), so two failures with different messages give
different bodies. -/
theorem error_body_is_message (env : Option Str) (event : HttpEvent) (m1 m2 : Str)
    (hpost : event.httpMethod = "POST".toList)
    (hsecret : event.body = ParsedBody.object (SecretField.text (expectedSecret env)))
    (h1 : m1 ≠ []) (h2 : m2 ≠ []) (hne : m1 ≠ m2) :
    handler env event (Outcome.rejected m1)
        = { statusCode := 500, body := ResponseBody.error m1 } ∧
      handler env event (Outcome.rejected m2)
        = { statusCode := 500, body := ResponseBody.error m2 } ∧
      (handler env event (Outcome.rejected m1)).body
        ≠ (handler env event (Outcome.rejected m2)).body := by
  have e1 : handler env event (Outcome.rejected m1)
      = { statusCode := 500, body := ResponseBody.error m1 } := by
    rw [handler_authorized _ hpost hsecret]
    exact errorResponse_of_ne_nil h1
  have e2 : handler env event (Outcome.rejected m2)
      = { statusCode := 500, body := ResponseBody.error m2 } := by
    rw [handler_authorized _ hpost hsecret]
    exact errorResponse_of_ne_nil h2
  refine ⟨e1, e2, ?_⟩
  rw [e1, e2]
  intro h
  injection h with h
  exact hne h

/-- C17 (as amended) at work on two refused connections. -/
theorem error_body_is_message_witness :
    handler none authorizedEvent (Outcome.rejected "connect ECONNREFUSED 10.0.0.1:993".toList)
        = { statusCode := 500,
            body := ResponseBody.error "connect ECONNREFUSED 10.0.0.1:993".toList } ∧
      handler none authorizedEvent (Outcome.rejected "connect ECONNREFUSED 10.0.0.2:993".toList)
        = { statusCode := 500,
            body := ResponseBody.error "connect ECONNREFUSED 10.0.0.2:993".toList } ∧
      (handler none authorizedEvent
          (Outcome.rejected "connect ECONNREFUSED 10.0.0.1:993".toList)).body
        ≠ (handler none authorizedEvent
          (Outcome.rejected "connect ECONNREFUSED 10.0.0.2:993".toList)).body :=
  error_body_is_message none authorizedEvent "connect ECONNREFUSED 10.0.0.1:993".toList
    "connect ECONNREFUSED 10.0.0.2:993".toList (by decide) (by decide) (by decide) (by decide)
    (by decide)

/-- C18 fails on the code: the header line of the fetch response is searched
like the content.  A message without any code, framed with the literal size
`{123456}`, resolves with `123456`; and a message that holds the code `845213`
resolves with the size as well, the header line coming first.  In general the
result is the first stand-alone run of six digits found line by line over the
header line, the content lines and the closing line. -/
theorem literal_size_returned_as_code :
    extractCode (joinLines ["Hello, there is no code in this mail".toList]) = none ∧
    (run "user".toList "pass".toList initial
        [Event.data openingChunk,
         Event.data ("* 1 FETCH (BODY[] {123456}\r\nHello, there is no code in this mail\r\n"
           ++ ")\r\nA3 OK FETCH completed\r\n").toList]).outcome
      = some (Outcome.resolved (some "123456".toList)) ∧
    (run "user".toList "pass".toList initial
        [Event.data openingChunk,
         Event.data ("* 1 FETCH (BODY[] {123456}\r\nYour code is 845213 today\r\n"
           ++ ")\r\nA3 OK FETCH completed\r\n").toList]).outcome
      = some (Outcome.resolved (some "123456".toList)) ∧
    (∀ (u p : Str) (s : Session) (header : Str) (content : List Str) (l : Str),
      s.stage = 3 → s.messageData = [] → s.outcome = none →
      startsWith "A3".toList header = false →
      (∀ x ∈ content, startsWith "A3".toList x = false) →
      startsWith "A3".toList l = true → testOK l = true →
      (processLines u p s (header :: content ++ [")".toList] ++ [l])).outcome
        = some (Outcome.resolved
            ((header :: content ++ [")".toList]).findSome? extractCode))) := by
  refine ⟨by decide, by decide, by decide, ?_⟩
  intro u p s header content l hs hm ho hh hc hl hok
  refine processLines_stage3_outcome u p s (header :: content ++ [")".toList]) l hs hm ho ?_
    hl hok
  intro x hx
  simp only [List.cons_append, List.mem_cons, List.mem_append, List.not_mem_nil,
    or_false] at hx
  rcases hx with e | e | e
  · rw [e]; exact hh
  · exact hc x e
  · rw [e]; rfl

/-- C19 fails on the code: a code cut by a line break is not matched.  The line
feed put after each line stands between the two parts, so for every cut of
`845213` after 1 to 5 digits the session resolves with `null`, while the uncut
line resolves with the code.  In general, when no line holds a stand-alone run
of six digits by itself, the session resolves with `null`. -/
theorem split_code_not_matched :
    (processLines "u".toList "p".toList { initial with stage := 3 }
        (splitCodeLines 1 ++ ["A3 OK FETCH completed".toList])).outcome
      = some (Outcome.resolved none) ∧
    (processLines "u".toList "p".toList { initial with stage := 3 }
        (splitCodeLines 2 ++ ["A3 OK FETCH completed".toList])).outcome
      = some (Outcome.resolved none) ∧
    (processLines "u".toList "p".toList { initial with stage := 3 }
        (splitCodeLines 3 ++ ["A3 OK FETCH completed".toList])).outcome
      = some (Outcome.resolved none) ∧
    (processLines "u".toList "p".toList { initial with stage := 3 }
        (splitCodeLines 4 ++ ["A3 OK FETCH completed".toList])).outcome
      = some (Outcome.resolved none) ∧
    (processLines "u".toList "p".toList { initial with stage := 3 }
        (splitCodeLines 5 ++ ["A3 OK FETCH completed".toList])).outcome
      = some (Outcome.resolved none) ∧
    (processLines "u".toList "p".toList { initial with stage := 3 }
        ["Your code is 845213 today".toList, "A3 OK FETCH completed".toList]).outcome
      = some (Outcome.resolved (some "845213".toList)) ∧
    (run "user".toList "pass".toList initial
        [Event.data openingChunk,
         Event.data "Your code is 845\r\n213 today\r\nA3 OK FETCH completed\r\n".toList]).outcome
      = some (Outcome.resolved none) ∧
    (∀ (u p : Str) (s : Session) (ls : List Str) (l : Str),
      s.stage = 3 → s.messageData = [] → s.outcome = none →
      (∀ x ∈ ls, startsWith "A3".toList x = false) →
      (∀ x ∈ ls, extractCode x = none) →
      startsWith "A3".toList l = true → testOK l = true →
      (processLines u p s (ls ++ [l])).outcome = some (Outcome.resolved none)) := by
  refine ⟨by decide, by decide, by decide, by decide, by decide, by decide, by decide, ?_⟩
  intro u p s ls l hs hm ho hls hnone hl hok
  rw [processLines_stage3_outcome u p s ls l hs hm ho hls hl hok,
    findSome?_eq_none_of_forall hnone]

/-- C20 fails on the code: the tag is tested with `startsWith`, so a line whose
first token only begins with the tag is taken for the tagged response.  In
stage 3 the content line `A3xZ9vb2JhciBiYXo=` rejects the promise with
`IMAP fetch failed` and the content line `A30 days left, book now` resolves it,
neither being appended; in stage 1 the line `A10 OK` makes the session write
`A2 SELECT INBOX` and go to stage 2.  In general a line of stage 3 is appended
exactly when it does not start with the two characters `A3`; one that does
leaves the handler with an outcome and is not appended. -/
theorem tag_prefix_taken_as_tag :
    (run "user".toList "pass".toList initial
        [Event.data openingChunk, Event.data "A3xZ9vb2JhciBiYXo=\r\n".toList])
      = { buffer := [], stage := 3, existsCount := some 1, messageData := [],
          written := ["A1 LOGIN user pass\r\n".toList, "A2 SELECT INBOX\r\n".toList,
            "A3 FETCH 1 BODY[]\r\n".toList],
          ended := true, outcome := some (Outcome.rejected "IMAP fetch failed".toList) } ∧
    (run "user".toList "pass".toList initial
        [Event.data openingChunk,
         Event.data "Your code is 845213\r\n".toList,
         Event.data "A30 days left, book now\r\n".toList])
      = { buffer := [], stage := 3, existsCount := some 1,
          messageData := "Your code is 845213\n".toList,
          written := ["A1 LOGIN user pass\r\n".toList, "A2 SELECT INBOX\r\n".toList,
            "A3 FETCH 1 BODY[]\r\n".toList],
          ended := true, outcome := some (Outcome.resolved (some "845213".toList)) } ∧
    (run "user".toList "pass".toList initial
        [Event.data "* OK ready\r\n".toList, Event.data "A10 OK\r\n".toList])
      = { buffer := [], stage := 2, existsCount := none, messageData := [],
          written := ["A1 LOGIN user pass\r\n".toList, "A2 SELECT INBOX\r\n".toList],
          ended := false, outcome := none } ∧
    (∀ (u p : Str) (s : Session) (l : Str), s.stage = 3 →
      (startsWith "A3".toList l = false →
        onLine u p s l
          = ({ s with messageData := s.messageData ++ l ++ "\n".toList }, false)) ∧
      (startsWith "A3".toList l = true →
        (onLine u p s l).2 = true ∧ (onLine u p s l).1.messageData = s.messageData)) := by
  refine ⟨by decide, by decide, by decide, ?_⟩
  intro u p s l hs
  exact ⟨fun hl => onLine_stage3_other hs hl, fun hl => onLine_stage3_tagged hs hl⟩

end GetOtp
